import Mathlib

/-!
Floating Sandbox: the texture database loader.

A shallow embedding of `GameLib/TextureDatabase.cpp` (`StrToTextureGroupType`
and `TextureDatabase::Load`) together with theorems about it.

Conventions of the embedding:

* a C++ exception is an `Except.error` carrying a `LoadError`;
* `std::string` and `std::filesystem::path` are `String`; the text functions
  work on the character list `String.data`;
* the libraries the loader calls (the regular expression engine, the image
  probe, the JSON reader, the directory iterator, `float` arithmetic) are the
  fields of an environment record `Env`, so every theorem holds for every
  behaviour of them;
* the mutable locals of `Load` (`allTextureFiles`, `textureFrames`,
  `filesFoundCount`, `textureGroups`) are threaded explicitly through the
  loops.
-/

namespace FloatingSandbox

/-! ## Data model -/

/-- The enumeration `TextureGroupType`. -/
inductive TextureGroupType
  | Cloud
  | Land
  | PinnedPoint
  | RcBomb
  | TimerBomb
  | Water
  deriving DecidableEq, Repr

/-- The pair `TextureFrameId(groupType, frameIndex)`. -/
structure TextureFrameId where
  Group : TextureGroupType
  FrameIndex : Nat
  deriving DecidableEq, Repr

/-- The pixel size `ImageSize` returned by `ResourceLoader::GetImageSize`. -/
structure ImageSize where
  Width : Int
  Height : Int
  deriving DecidableEq, Repr

/-- The record `TextureFrameMetadata`, in the order of the constructor call of
`Load`; `F` is the type of `float` values. -/
structure TextureFrameMetadata (F : Type) where
  Size : ImageSize
  WorldWidth : F
  WorldHeight : F
  HasOwnAmbientLight : Bool
  AnchorX : Int
  AnchorY : Int
  FrameId : TextureFrameId
  deriving DecidableEq, Repr

/-- The record `TextureFrameSpecification(metadata, filePath)`. -/
structure TextureFrameSpecification (F : Type) where
  Metadata : TextureFrameMetadata F
  FilePath : String
  deriving DecidableEq, Repr

/-- The class `TextureGroup`, holding `mFrameSpecifications`. -/
structure TextureGroup (F : Type) where
  mFrameSpecifications : List (TextureFrameSpecification F)
  deriving DecidableEq, Repr

/-- The class `TextureDatabase`, holding its groups. -/
structure TextureDatabase (F : Type) where
  mGroups : List (TextureGroup F)
  deriving DecidableEq, Repr

/-- The local struct `FileData` of `Load`. -/
structure FileData where
  Path : String
  Stem : String
  deriving DecidableEq, Repr

/-- One entry yielded by `std::filesystem::directory_iterator`: its path and
what `std::filesystem::is_regular_file` answers for it. -/
structure DirEntry where
  path : String
  is_regular_file : Bool
  deriving DecidableEq, Repr

/-- A `picojson::value`; `N` is the type of JSON numbers. -/
inductive Json (N : Type) where
  | null
  | boolean (b : Bool)
  | number (n : N)
  | string (s : String)
  | array (items : List (Json N))
  | object (members : List (String × Json N))

/-- Every way `Load` can throw. The constructors up to `leftoverFiles` are the
`GameException`s of the source, with the values spliced into their messages;
the others are thrown by the helpers and the libraries it calls. -/
inductive LoadError where
  /-- "Unrecognized TextureGroupType" -/
  | unrecognizedTextureGroupType (str : String)
  /-- "file ... does not contain a JSON array" -/
  | notJsonArray (jsonFilePath : String)
  /-- "found a non-object group in database" -/
  | nonObjectGroup
  /-- "found a non-object frame in database" -/
  | nonObjectFrame
  /-- "cannot find frame index in texture filename" -/
  | cannotFindFrameIndex (stem : String)
  /-- "cannot find "worldScaling" property in frame" -/
  | missingWorldScaling (frameFilename : String)
  /-- "couldn't match any file to frame file" -/
  | noFileMatched (frameFilename : String)
  /-- "duplicate frame ... in group ..." -/
  | duplicateFrame (frameIndex : Nat) (groupName : String)
  /-- "missing frame ... in group ..." -/
  | missingFrame (expectedIndex : Nat) (groupName : String)
  /-- "couldn't match ... texture files (e.g. ...) to texture specification file" -/
  | leftoverFiles (count : Nat) (stem : String)
  /-- A mandatory JSON member is absent. -/
  | jsonMemberMissing (memberName : String)
  /-- A JSON member is present with a value of another type. -/
  | jsonMemberWrongType (memberName : String)
  /-- The directory cannot be iterated, or the manifest cannot be parsed. -/
  | ioError (path : String)
  /-- `std::regex_error` from the constructor of `std::regex`. -/
  | regexError (pattern : String)
  /-- `std::out_of_range` from `std::stoi`. -/
  | stoiOutOfRange (digits : String)
  /-- `ResourceLoader::GetImageSize` failed. -/
  | imageSizeError (path : String)
  deriving DecidableEq, Repr

deriving instance DecidableEq for Except

/-- The libraries and the disk behind `Load`. -/
structure Env (F N : Type) where
  /-- What `std::filesystem::directory_iterator(root)` yields, in its order;
  `none` when it throws. -/
  directory_iterator : String → Option (List DirEntry)
  /-- Result of `Utils::ParseJSONFile`; `none` when it throws. -/
  ParseJSONFile : String → Option (Json N)
  /-- A JSON number read as a `float`. -/
  toFloat : N → F
  /-- A JSON number read as an `int`; `none` when it is not one. -/
  toInt : N → Option Int
  /-- The conversion `static_cast<float>(int)`. -/
  intToFloat : Int → F
  /-- The product of two `float`s. -/
  fmul : F → F → F
  /-- Constructor of `std::regex` (`none` when it throws `std::regex_error`)
  followed by `std::regex_match` of a whole string. -/
  regex : String → Option (String → Bool)
  /-- Result of `ResourceLoader::GetImageSize`; `none` when it throws. -/
  GetImageSize : String → Option ImageSize
  /-- Width in bits of the unsigned type `TextureFrameIndex`. -/
  FrameIndexBits : Nat

/-! ## Paths -/

/-- The characters after the last directory separator: `path::filename()`. -/
def filenameChars (p : List Char) : List Char :=
  (p.reverse.takeWhile (fun c => c != '/')).reverse

/-- The pair (stem, extension) of a filename, as `path::stem()` and
`path::extension()` of C++17 split it: the extension starts at the last period
and includes it; a filename with no period, with a leading period only, or equal
to "." or "..", has an empty extension. -/
def splitExtension (f : List Char) : List Char × List Char :=
  if f = ['.'] ∨ f = ['.', '.'] then (f, [])
  else if ¬ f.contains '.' then (f, [])
  else
    let after := (f.reverse.takeWhile (fun c => c != '.')).reverse
    let before := (f.reverse.dropWhile (fun c => c != '.')).tail.reverse
    if before = [] then (f, []) else (before, '.' :: after)

/-- The call `path.filename()`. -/
def filename (p : String) : String := String.mk (filenameChars p.data)

/-- The call `path.extension()` (that of the filename). -/
def extension (p : String) : String := String.mk (splitExtension (filenameChars p.data)).2

/-- The call `path.stem()`. -/
def stem (p : String) : String := String.mk (splitExtension (filenameChars p.data)).1

/-- The operator `root / name` of `std::filesystem::path`. -/
def pathAppend (root name : String) : String :=
  if root.data = [] then name
  else if root.data.getLast? = some '/' then root ++ name
  else root ++ "/" ++ name

/-! ## Directory enumeration (lines 67-80) -/

/-- The loop over `directory_iterator(texturesRoot)` that fills
`allTextureFiles`. -/
def enumerateTextureFiles (entries : List DirEntry) : List FileData :=
  entries.filterMap fun entryIt =>
    if entryIt.is_regular_file && extension entryIt.path != "json" then
      some (FileData.mk entryIt.path (stem (filename entryIt.path)))
    else none

/-! ## JSON member access (`Utils`) -/

/-- The lookup `obj.find(memberName)` in a `picojson::object`. -/
def findMember {N : Type} (obj : List (String × Json N)) (memberName : String) :
    Option (Json N) :=
  match obj with
  | [] => none
  | (k, v) :: rest => if k = memberName then some v else findMember rest memberName

/-- Modelled from the spec: `Utils::GetMandatoryJsonMember<std::string>` is
declared in `Utils.h`, which is not among the sources. The spec lists "missing
mandatory field" among the manifest structure errors; a member of another type
is an error as well. -/
def GetMandatoryJsonString {N : Type} (obj : List (String × Json N)) (memberName : String) :
    Except LoadError String :=
  match findMember obj memberName with
  | none => .error (.jsonMemberMissing memberName)
  | some (.string s) => .ok s
  | some _ => .error (.jsonMemberWrongType memberName)

/-- Modelled from the spec: `Utils::GetMandatoryJsonArray` is declared in
`Utils.h`, which is not among the sources; see `GetMandatoryJsonString`. -/
def GetMandatoryJsonArray {N : Type} (obj : List (String × Json N)) (memberName : String) :
    Except LoadError (List (Json N)) :=
  match findMember obj memberName with
  | none => .error (.jsonMemberMissing memberName)
  | some (.array items) => .ok items
  | some _ => .error (.jsonMemberWrongType memberName)

/-- Modelled from the spec: `Utils::GetOptionalJsonMember<float>` is declared in
`Utils.h`, which is not among the sources. An absent member is no value (the
spec: "optional group-level scale"); a member of another type is an error. -/
def GetOptionalJsonFloat {F N : Type} (env : Env F N) (obj : List (String × Json N))
    (memberName : String) : Except LoadError (Option F) :=
  match findMember obj memberName with
  | none => .ok none
  | some (.number n) => .ok (some (env.toFloat n))
  | some _ => .error (.jsonMemberWrongType memberName)

/-- Modelled from the spec: `Utils::GetOptionalJsonMember<bool>` is declared in
`Utils.h`, which is not among the sources; see `GetOptionalJsonFloat`. -/
def GetOptionalJsonBool {N : Type} (obj : List (String × Json N)) (memberName : String) :
    Except LoadError (Option Bool) :=
  match findMember obj memberName with
  | none => .ok none
  | some (.boolean b) => .ok (some b)
  | some _ => .error (.jsonMemberWrongType memberName)

/-- Modelled from the spec: `Utils::GetOptionalJsonMember<int>` is declared in
`Utils.h`, which is not among the sources; see `GetOptionalJsonFloat`. -/
def GetOptionalJsonInt {F N : Type} (env : Env F N) (obj : List (String × Json N))
    (memberName : String) : Except LoadError (Option Int) :=
  match findMember obj memberName with
  | none => .ok none
  | some (.number n) =>
    match env.toInt n with
    | some i => .ok (some i)
    | none => .error (.jsonMemberWrongType memberName)
  | some _ => .error (.jsonMemberWrongType memberName)

/-- The overload of `GetOptionalJsonMember` with a default value (the spec:
"ambient-light flag (default false), anchor X/Y (default 0)"). -/
def withDefault {α : Type} (r : Except LoadError (Option α)) (defaultValue : α) :
    Except LoadError α :=
  match r with
  | .error e => .error e
  | .ok none => .ok defaultValue
  | .ok (some v) => .ok v

/-! ## `StrToTextureGroupType` (lines 15-33) -/

/-- Modelled from the spec: `Utils::ToLower` is declared in `Utils.h`, which is
not among the sources. By its name and by the spec ("parsed from a lowercase
string token") it maps the letters A to Z to lower case and keeps every other
character. -/
def ToLower (str : String) : String :=
  String.mk (str.data.map fun c => if 'A' ≤ c ∧ c ≤ 'Z' then Char.ofNat (c.toNat + 32) else c)

/-- The function `StrToTextureGroupType`. -/
def StrToTextureGroupType (str : String) : Except LoadError TextureGroupType :=
  let lstr := ToLower str
  if lstr = "cloud" then .ok .Cloud
  else if lstr = "land" then .ok .Land
  else if lstr = "pinned_point" then .ok .PinnedPoint
  else if lstr = "rc_bomb" then .ok .RcBomb
  else if lstr = "timer_bomb" then .ok .TimerBomb
  else if lstr = "water" then .ok .Water
  else .error (.unrecognizedTextureGroupType str)

/-! ## Frame index extraction (lines 159-167) -/

/-- The characters that `.` of an ECMAScript regular expression rejects. -/
def isLineTerminator (c : Char) : Bool := c = '\n' || c = '\r'

/-- The tail `(\d+)$` of `TextureFilenameFrameIndexRegex`: one or more decimal
digits up to the end of the string. -/
def digitsToEnd (s : List Char) : Bool := s != [] && s.all Char.isDigit

/-- The regular expression after `.+?` has taken at least one character: try
`_(\d+)$` at this position; when that fails the lazy quantifier takes one more
character. Returns the first sub-match. -/
def frameIndexAfterDot : List Char → Option (List Char)
  | [] => none
  | c :: rest =>
    if c = '_' ∧ digitsToEnd rest then some rest
    else if isLineTerminator c then none
    else frameIndexAfterDot rest

/-- The call `std::regex_match(stem, frameIndexMatch, TextureFilenameFrameIndexRegex)`
with the regular expression `^.+?_(\d+)$`: `none` when there is no match, else the
sub-match `frameIndexMatch[1]`. -/
def TextureFilenameFrameIndexRegex : List Char → Option (List Char)
  | [] => none
  | c :: rest => if isLineTerminator c then none else frameIndexAfterDot rest

/-- The value of a string of decimal digits. -/
def decimalValue (digits : List Char) : Nat :=
  digits.foldl (fun acc c => 10 * acc + (c.toNat - 48)) 0

/-- The call `std::stoi` on a string of decimal digits: `none` stands for
`std::out_of_range`, thrown when the value exceeds `INT_MAX`. -/
def stoi (digits : List Char) : Option Nat :=
  if decimalValue digits ≤ 2147483647 then some (decimalValue digits) else none

/-- Lines 159-167: match the stem against `TextureFilenameFrameIndexRegex`, parse
the sub-match with `std::stoi` and cast the result to `TextureFrameIndex`. -/
def extractFrameIndex {F N : Type} (env : Env F N) (stem : String) : Except LoadError Nat :=
  match TextureFilenameFrameIndexRegex stem.data with
  | none => .error (.cannotFindFrameIndex stem)
  | some digits =>
    match stoi digits with
    | none => .error (.stoiOutOfRange (String.mk digits))
    | some n => .ok (n % 2 ^ env.FrameIndexBits)

/-! ## The body of the file loop (lines 153-207) -/

/-- The group-level locals of `Load`: `groupName`, `groupType` and the defaults
read at lines 113-117. -/
structure GroupDefaults (F : Type) where
  groupName : String
  groupType : TextureGroupType
  groupWorldScaling : Option F
  groupHasOwnAmbientLight : Bool
  groupAnchorX : Int
  groupAnchorY : Int

/-- The frame-level locals of `Load`, read at lines 135-142. -/
structure FrameProperties (F : Type) where
  frameWorldScaling : Option F
  frameHasOwnAmbientLight : Option Bool
  frameAnchorX : Option Int
  frameAnchorY : Option Int
  frameFilename : String

/-- Lines 174-179: `none` when both levels lack `worldScaling` (the source
throws), else the frame-level value when there is one, else the group-level
one. -/
def resolveWorldScaling {F : Type} (groupWorldScaling frameWorldScaling : Option F) :
    Option F :=
  match frameWorldScaling, groupWorldScaling with
  | none, none => none
  | some s, _ => some s
  | none, some s => some s

/-- What the file loop does with a file whose stem the frame's regular
expression matches: extract the frame index, resolve the properties, probe the
image size and build the frame specification. -/
def buildFrame {F N : Type} (env : Env F N) (group : GroupDefaults F)
    (frame : FrameProperties F) (fileData : FileData) :
    Except LoadError (TextureFrameSpecification F) :=
  match extractFrameIndex env fileData.Stem with
  | .error e => .error e
  | .ok frameIndex =>
      match resolveWorldScaling group.groupWorldScaling frame.frameWorldScaling with
      | none => .error (.missingWorldScaling frame.frameFilename)
      | some worldScaling =>
        let hasOwnAmbientLight :=
          match frame.frameHasOwnAmbientLight with
          | some b => b
          | none => group.groupHasOwnAmbientLight
        let anchorX :=
          match frame.frameAnchorX with
          | some x => x
          | none => group.groupAnchorX
        let anchorY :=
          match frame.frameAnchorY with
          | some y => y
          | none => group.groupAnchorY
        match env.GetImageSize fileData.Path with
        | none => .error (.imageSizeError fileData.Path)
        | some textureSize =>
          let worldWidth := env.fmul (env.intToFloat textureSize.Width) worldScaling
          let worldHeight := env.fmul (env.intToFloat textureSize.Height) worldScaling
          .ok {
            Metadata := {
              Size := textureSize
              WorldWidth := worldWidth
              WorldHeight := worldHeight
              HasOwnAmbientLight := hasOwnAmbientLight
              AnchorX := anchorX
              AnchorY := anchorY
              FrameId := TextureFrameId.mk group.groupType frameIndex }
            FilePath := fileData.Path }

/-! ## The file loop (lines 147-222) -/

/-- The loop over `allTextureFiles` for one frame. `kept` are the files before
`fileIt`, the second list the files from `fileIt` on (so `allTextureFiles` is
their concatenation); `textureFrames` and `filesFoundCount` are the locals of
these names. A matched file is erased and its frame appended. -/
def matchFiles {F N : Type} (env : Env F N) (group : GroupDefaults F)
    (frame : FrameProperties F) (frameFilenameRegex : String → Bool)
    (kept : List FileData) :
    List FileData → List (TextureFrameSpecification F) → Nat →
      Except LoadError (List FileData × List (TextureFrameSpecification F) × Nat)
  | [], textureFrames, filesFoundCount => .ok (kept, textureFrames, filesFoundCount)
  | fileData :: rest, textureFrames, filesFoundCount =>
    if frameFilenameRegex fileData.Stem then
      match buildFrame env group frame fileData with
      | .error e => .error e
      | .ok spec =>
        matchFiles env group frame frameFilenameRegex kept rest (textureFrames ++ [spec])
          (filesFoundCount + 1)
    else
      matchFiles env group frame frameFilenameRegex (kept ++ [fileData]) rest textureFrames
        filesFoundCount

/-! ## One frame object (lines 128-228) -/

/-- Lines 135-143: the properties of a frame object, its filename pattern, and
the regular expression built from `"^" + frameFilename + "$"`. -/
def readFrameProperties {F N : Type} (env : Env F N) (frameJson : List (String × Json N)) :
    Except LoadError (FrameProperties F × (String → Bool)) :=
  match GetOptionalJsonFloat env frameJson "worldScaling" with
  | .error e => .error e
  | .ok frameWorldScaling =>
  match GetOptionalJsonBool frameJson "hasOwnAmbientLight" with
  | .error e => .error e
  | .ok frameHasOwnAmbientLight =>
  match GetOptionalJsonInt env frameJson "anchorX" with
  | .error e => .error e
  | .ok frameAnchorX =>
  match GetOptionalJsonInt env frameJson "anchorY" with
  | .error e => .error e
  | .ok frameAnchorY =>
  match GetMandatoryJsonString frameJson "filename" with
  | .error e => .error e
  | .ok frameFilename =>
  match env.regex ("^" ++ frameFilename ++ "$") with
  | none => .error (.regexError ("^" ++ frameFilename ++ "$"))
  | some frameFilenameRegex =>
    .ok ({ frameWorldScaling := frameWorldScaling
           frameHasOwnAmbientLight := frameHasOwnAmbientLight
           frameAnchorX := frameAnchorX
           frameAnchorY := frameAnchorY
           frameFilename := frameFilename }, frameFilenameRegex)

/-- The body of the loop over the `frames` array: read the frame properties,
build the regular expression, run the file loop, and require a match. Takes
and returns `allTextureFiles` and `textureFrames`. -/
def processFrame {F N : Type} (env : Env F N) (group : GroupDefaults F)
    (frameValue : Json N) (allTextureFiles : List FileData)
    (textureFrames : List (TextureFrameSpecification F)) :
    Except LoadError (List FileData × List (TextureFrameSpecification F)) :=
  match frameValue with
  | .object frameJson =>
    match readFrameProperties env frameJson with
    | .error e => .error e
    | .ok (frame, frameFilenameRegex) =>
      match matchFiles env group frame frameFilenameRegex [] allTextureFiles textureFrames 0 with
      | .error e => .error e
      | .ok (remaining, frames, filesFoundCount) =>
        if filesFoundCount = 0 then .error (.noFileMatched frame.frameFilename)
        else .ok (remaining, frames)
  | _ => .error .nonObjectFrame

/-- The loop over the `frames` array of one group (lines 126-229). -/
def processFrames {F N : Type} (env : Env F N) (group : GroupDefaults F) :
    List (Json N) → List FileData → List (TextureFrameSpecification F) →
      Except LoadError (List FileData × List (TextureFrameSpecification F))
  | [], allTextureFiles, textureFrames => .ok (allTextureFiles, textureFrames)
  | frameValue :: rest, allTextureFiles, textureFrames =>
    match processFrame env group frameValue allTextureFiles textureFrames with
    | .error e => .error e
    | .ok (remaining, frames) => processFrames env group rest remaining frames

/-! ## Group validation (lines 231-251) -/

/-- The frame index of a specification: `Metadata.FrameId.FrameIndex`. -/
def frameIndexOf {F : Type} (spec : TextureFrameSpecification F) : Nat :=
  spec.Metadata.FrameId.FrameIndex

/-- The order `std::sort` is called with: by frame index. -/
def frameIndexLE {F : Type} (a b : TextureFrameSpecification F) : Prop :=
  frameIndexOf a ≤ frameIndexOf b

instance frameIndexLE_decidable {F : Type} :
    DecidableRel (frameIndexLE : TextureFrameSpecification F → _ → Prop) :=
  fun a b => inferInstanceAs (Decidable (frameIndexOf a ≤ frameIndexOf b))

/-- The call `std::sort(textureFrames.begin(), textureFrames.end(), ...)`, as an
insertion sort. `std::sort` leaves the order of frames with equal indices
unspecified; the check that follows reads the indices only, and stores the
frames only when the indices are distinct, so its outcome is the same for
every sorting algorithm. -/
def sortFrames {F : Type} (textureFrames : List (TextureFrameSpecification F)) :
    List (TextureFrameSpecification F) :=
  textureFrames.insertionSort frameIndexLE

/-- The loop "make sure all indices are found", from `expectedIndex` on; the
list holds `textureFrames[expectedIndex]` and the elements after it. -/
def checkFrameIndices {F : Type} (groupName : String) :
    Nat → List (TextureFrameSpecification F) → Except LoadError Unit
  | _, [] => .ok ()
  | expectedIndex, spec :: rest =>
    if frameIndexOf spec < expectedIndex then
      .error (.duplicateFrame (frameIndexOf spec) groupName)
    else if frameIndexOf spec > expectedIndex then
      .error (.missingFrame expectedIndex groupName)
    else checkFrameIndices groupName (expectedIndex + 1) rest

/-- Lines 231-254: sort the frames of a group, check the indices, and build the
`TextureGroup`. -/
def validateGroup {F : Type} (groupName : String)
    (textureFrames : List (TextureFrameSpecification F)) :
    Except LoadError (TextureGroup F) :=
  match checkFrameIndices groupName 0 (sortFrames textureFrames) with
  | .error e => .error e
  | .ok () => .ok (TextureGroup.mk (sortFrames textureFrames))

/-! ## One group object (lines 103-254) -/

/-- Lines 110-117: the name, the type and the defaults of a group. -/
def readGroupDefaults {F N : Type} (env : Env F N) (groupJson : List (String × Json N)) :
    Except LoadError (GroupDefaults F) :=
  match GetMandatoryJsonString groupJson "groupName" with
  | .error e => .error e
  | .ok groupName =>
  match StrToTextureGroupType groupName with
  | .error e => .error e
  | .ok groupType =>
  match GetOptionalJsonFloat env groupJson "worldScaling" with
  | .error e => .error e
  | .ok groupWorldScaling =>
  match withDefault (GetOptionalJsonBool groupJson "hasOwnAmbientLight") false with
  | .error e => .error e
  | .ok groupHasOwnAmbientLight =>
  match withDefault (GetOptionalJsonInt env groupJson "anchorX") 0 with
  | .error e => .error e
  | .ok groupAnchorX =>
  match withDefault (GetOptionalJsonInt env groupJson "anchorY") 0 with
  | .error e => .error e
  | .ok groupAnchorY =>
    .ok { groupName := groupName
          groupType := groupType
          groupWorldScaling := groupWorldScaling
          groupHasOwnAmbientLight := groupHasOwnAmbientLight
          groupAnchorX := groupAnchorX
          groupAnchorY := groupAnchorY }

/-- The body of the loop over the groups of the manifest. Takes
`allTextureFiles`, returns what is left of it and the `TextureGroup` that the
source appends to `textureGroups`. -/
def processGroup {F N : Type} (env : Env F N) (groupValue : Json N)
    (allTextureFiles : List FileData) :
    Except LoadError (List FileData × TextureGroup F) :=
  match groupValue with
  | .object groupJson =>
    match readGroupDefaults env groupJson with
    | .error e => .error e
    | .ok group =>
    match GetMandatoryJsonArray groupJson "frames" with
    | .error e => .error e
    | .ok frames =>
    match processFrames env group frames allTextureFiles [] with
    | .error e => .error e
    | .ok (remaining, textureFrames) =>
    match validateGroup group.groupName textureFrames with
    | .error e => .error e
    | .ok textureGroup => .ok (remaining, textureGroup)
  | _ => .error .nonObjectGroup

/-- The loop over the groups of the manifest (lines 101-255), threading
`allTextureFiles` and `textureGroups`. -/
def processGroups {F N : Type} (env : Env F N) :
    List (Json N) → List FileData → List (TextureGroup F) →
      Except LoadError (List FileData × List (TextureGroup F))
  | [], allTextureFiles, textureGroups => .ok (allTextureFiles, textureGroups)
  | groupValue :: rest, allTextureFiles, textureGroups =>
    match processGroup env groupValue allTextureFiles with
    | .error e => .error e
    | .ok (remaining, textureGroup) =>
      processGroups env rest remaining (textureGroups ++ [textureGroup])

/-! ## `TextureDatabase::Load` -/

/-- Lines 89-263 of `Load`: everything after the candidate pool
`allTextureFiles` is built and the manifest is parsed into `root`. -/
def LoadFromPool {F N : Type} (env : Env F N) (jsonFilePath : String) (root : Json N)
    (allTextureFiles : List FileData) : Except LoadError (TextureDatabase F) :=
  match root with
  | .array groups =>
    match processGroups env groups allTextureFiles [] with
    | .error e => .error e
    | .ok (remaining, textureGroups) =>
      match remaining with
      | [] => .ok (TextureDatabase.mk textureGroups)
      | first :: _ => .error (.leftoverFiles remaining.length first.Stem)
  | _ => .error (.notJsonArray jsonFilePath)

/-- The function `TextureDatabase::Load(texturesRoot, progressCallback)`; the
progress callback is never called and is left out. -/
def Load {F N : Type} (env : Env F N) (texturesRoot : String) :
    Except LoadError (TextureDatabase F) :=
  match env.directory_iterator texturesRoot with
  | none => .error (.ioError texturesRoot)
  | some entries =>
    let allTextureFiles := enumerateTextureFiles entries
    let jsonFilePath := pathAppend texturesRoot "textures.json"
    match env.ParseJSONFile jsonFilePath with
    | none => .error (.ioError jsonFilePath)
    | some root => LoadFromPool env jsonFilePath root allTextureFiles

/-! ## A concrete environment

The theorems below hold for every environment. To run the loader on concrete
directories we instantiate the environment with exact rational arithmetic for
`float` and with a matcher for the fragment of the ECMAScript grammar that
texture manifests use: literal characters, `.`, `\d`, and the quantifiers `+`,
`*` and `?`, between `^` and `$`. -/

/-- An atom of the fragment. -/
inductive RegexAtom where
  | literal (c : Char)
  | anyChar
  | digit
  deriving DecidableEq, Repr

/-- A quantifier of the fragment. -/
inductive RegexQuantifier where
  | one
  | plus
  | star
  | optional
  deriving DecidableEq, Repr

/-- Whether a character has a meaning of its own in the ECMAScript grammar. -/
def isRegexSpecial (c : Char) : Bool :=
  ['\\', '^', '$', '.', '|', '?', '*', '+', '(', ')', '[', ']', '\x7b', '\x7d'].contains c

/-- Reads the items of a pattern; `acc` holds the items read so far, last
first. `none` outside the fragment. -/
def parseRegexItems : List Char → List (RegexAtom × RegexQuantifier) →
    Option (List (RegexAtom × RegexQuantifier))
  | [], acc => some acc.reverse
  | c :: rest, acc =>
    if c = '+' ∨ c = '*' ∨ c = '?' then
      match acc with
      | (a, .one) :: acc1 =>
        parseRegexItems rest
          ((a, if c = '+' then .plus else if c = '*' then .star else .optional) :: acc1)
      | _ => none
    else if c = '.' then parseRegexItems rest ((.anyChar, .one) :: acc)
    else if c = '\\' then
      match rest with
      | [] => none
      | d :: rest1 =>
        if d = 'd' then parseRegexItems rest1 ((.digit, .one) :: acc)
        else if isRegexSpecial d then parseRegexItems rest1 ((.literal d, .one) :: acc)
        else none
    else if isRegexSpecial c then none
    else parseRegexItems rest ((.literal c, .one) :: acc)

/-- Whether an atom accepts a character. -/
def atomMatches : RegexAtom → Char → Bool
  | .literal l, c => l = c
  | .anyChar, c => !isLineTerminator c
  | .digit, c => c.isDigit

/-- The inputs left after the atom has taken zero or more characters. -/
def consumeMany (a : RegexAtom) : List Char → List (List Char)
  | [] => [[]]
  | c :: t => (c :: t) :: (if atomMatches a c then consumeMany a t else [])

/-- The inputs left after one quantified atom. -/
def consumeItem (item : RegexAtom × RegexQuantifier) (s : List Char) : List (List Char) :=
  match item.2, s with
  | .one, [] => []
  | .one, c :: t => if atomMatches item.1 c then [t] else []
  | .plus, [] => []
  | .plus, c :: t => if atomMatches item.1 c then consumeMany item.1 t else []
  | .star, s => consumeMany item.1 s
  | .optional, [] => [[]]
  | .optional, c :: t => (c :: t) :: (if atomMatches item.1 c then [t] else [])

/-- Whether the items match the whole input. -/
def matchRegexItems (items : List (RegexAtom × RegexQuantifier)) (s : List Char) : Bool :=
  (items.foldl (fun inputs item => inputs.flatMap (consumeItem item)) [s]).contains []

/-- The matcher of the fragment, for a pattern between `^` and `$`. -/
def fragmentRegex (pattern : String) : Option (String → Bool) :=
  match pattern.data with
  | [] => none
  | c :: rest =>
    if c = '^' ∧ rest.getLast? = some '$' then
      match parseRegexItems rest.dropLast [] with
      | none => none
      | some items => some fun s => matchRegexItems items s.data
    else none

/-- The concrete environment: a directory listing, the parsed manifest and the
image sizes of the files are given; `float` is exact rational arithmetic, JSON
numbers are rationals, and `TextureFrameIndex` has 16 bits. -/
def concreteEnv (entries : List DirEntry) (manifest : Json ℚ)
    (sizes : String → Option ImageSize) : Env ℚ ℚ where
  directory_iterator := fun _ => some entries
  ParseJSONFile := fun _ => some manifest
  toFloat := fun q => q
  toInt := fun q => if q.den = 1 then some q.num else none
  intToFloat := fun i => (i : ℚ)
  fmul := fun a b => a * b
  regex := fragmentRegex
  GetImageSize := sizes
  FrameIndexBits := 16

/-- The manifest of the end-to-end example: one group "water" with
`worldScaling` 1.5 and the single frame pattern `water_\d+`. -/
def waterManifest : Json ℚ :=
  .array [.object [("groupName", .string "water"), ("worldScaling", .number (3 / 2)),
    ("frames", .array [.object [("filename", .string "water_\\d+")]])]]

/-- Both images of the end-to-end example are 10 by 20 pixels. -/
def waterSizes (path : String) : Option ImageSize :=
  if path = "Data/Textures/water_0.png" ∨ path = "Data/Textures/water_1.png" then
    some (ImageSize.mk 10 20)
  else none

/-- The directory of the end-to-end example: the manifest and the two images. -/
def waterDirectory : List DirEntry :=
  [DirEntry.mk "Data/Textures/textures.json" true,
   DirEntry.mk "Data/Textures/water_0.png" true,
   DirEntry.mk "Data/Textures/water_1.png" true]

/-- A manifest with one group "cloud" without `worldScaling` and one frame
pattern, without `worldScaling` either. -/
def unscaledManifest (pattern : String) : Json ℚ :=
  .array [.object [("groupName", .string "cloud"),
    ("frames", .array [.object [("filename", .string pattern)]])]]

/-- The manifest "cloud" with `worldScaling` 1 and one frame pattern. -/
def cloudManifest (pattern : String) : Json ℚ :=
  .array [.object [("groupName", .string "cloud"), ("worldScaling", .number 1),
    ("frames", .array [.object [("filename", .string pattern)]])]]

/-- Every image is 4 by 4 pixels. -/
def squareSizes (_ : String) : Option ImageSize := some (ImageSize.mk 4 4)

/-- A candidate file in the directory "t", named by its stem. -/
def pngFile (stem : String) : FileData := FileData.mk ("t/" ++ stem ++ ".png") stem

/-! ## Specification-level functions used in the proofs -/

/-- The frames built, in order, for a list of files (the matched ones); the
first failure ends the run, as a throw ends the file loop. -/
def buildAll {F N : Type} (env : Env F N) (group : GroupDefaults F)
    (frame : FrameProperties F) :
    List FileData → Except LoadError (List (TextureFrameSpecification F))
  | [] => .ok []
  | fileData :: rest =>
    match buildFrame env group frame fileData with
    | .error e => .error e
    | .ok spec =>
      match buildAll env group frame rest with
      | .error e => .error e
      | .ok specs => .ok (spec :: specs)

/-- All frame specifications of a database, group after group. -/
def allFrames {F : Type} (db : TextureDatabase F) : List (TextureFrameSpecification F) :=
  db.mGroups.flatMap fun g => g.mFrameSpecifications

/-- No frame pattern of the manifest matches the stem: for every frame object
of every group object, the regular expression built from its `filename` rejects
the stem. -/
def matchedByNoPattern {F N : Type} (env : Env F N) (groups : List (Json N))
    (stem : String) : Prop :=
  ∀ groupJson, Json.object groupJson ∈ groups →
    ∀ frames, GetMandatoryJsonArray groupJson "frames" = .ok frames →
      ∀ frameJson, Json.object frameJson ∈ frames →
        ∀ frameFilename, GetMandatoryJsonString frameJson "filename" = .ok frameFilename →
          ∀ m, env.regex ("^" ++ frameFilename ++ "$") = some m → m stem = false

/-- A frame specification of the group "cloud" with the given frame index. -/
def cloudFrame (frameIndex : Nat) : TextureFrameSpecification ℚ :=
  { Metadata := {
      Size := ImageSize.mk 4 4
      WorldWidth := 4
      WorldHeight := 4
      HasOwnAmbientLight := false
      AnchorX := 0
      AnchorY := 0
      FrameId := TextureFrameId.mk .Cloud frameIndex }
    FilePath := "t/cloud.png" }

/-- No frame object of the list has a pattern that matches the stem: the
regular expression built from each `filename` rejects it. -/
def rejectedByFrames {F N : Type} (env : Env F N) (frames : List (Json N))
    (stem : String) : Prop :=
  ∀ frameJson, Json.object frameJson ∈ frames →
    ∀ frameFilename, GetMandatoryJsonString frameJson "filename" = .ok frameFilename →
      ∀ m, env.regex ("^" ++ frameFilename ++ "$") = some m → m stem = false

/-- A manifest with two groups: "cloud" with the frame pattern `a_\d+`, then the
group named by the argument with the frame pattern `._\d+`, which matches the
stems that `a_\d+` matches and others. Both have `worldScaling` 1. -/
def twoGroupManifest (secondName : String) : Json ℚ :=
  .array [.object [("groupName", .string "cloud"), ("worldScaling", .number 1),
      ("frames", .array [.object [("filename", .string "a_\\d+")]])],
    .object [("groupName", .string secondName), ("worldScaling", .number 1),
      ("frames", .array [.object [("filename", .string "._\\d+")]])]]

/-- The frame specification built for the file `pngFile stem` of 4 by 4 pixels
with `worldScaling` 1. -/
def squareFrame (groupType : TextureGroupType) (frameIndex : Nat) (stem : String) :
    TextureFrameSpecification ℚ :=
  { Metadata := {
      Size := ImageSize.mk 4 4
      WorldWidth := 4
      WorldHeight := 4
      HasOwnAmbientLight := false
      AnchorX := 0
      AnchorY := 0
      FrameId := TextureFrameId.mk groupType frameIndex }
    FilePath := (pngFile stem).Path }

/-- The environment of the examples on pools: no directory, images of 4 by 4
pixels. -/
def poolEnv : Env ℚ ℚ := concreteEnv [] .null squareSizes

/-- The `TextureGroupType` that `Load` parses from an element of the manifest:
that of the `groupName` of a group object; `none` when `Load` would throw. -/
def manifestGroupType {N : Type} (groupValue : Json N) : Option TextureGroupType :=
  match groupValue with
  | .object groupJson =>
    match GetMandatoryJsonString groupJson "groupName" with
    | .error _ => none
    | .ok groupName =>
      match StrToTextureGroupType groupName with
      | .error _ => none
      | .ok groupType => some groupType
  | _ => none

/-! ## Theorems: directory enumeration -/

/-- The extension that `path::extension()` returns is empty or starts with a
period. -/
theorem splitExtension_snd (f : List Char) :
    (splitExtension f).2 = [] ∨ ∃ t, (splitExtension f).2 = '.' :: t := by
  unfold splitExtension
  by_cases h1 : f = ['.'] ∨ f = ['.', '.']
  · left
    simp only [if_pos h1]
  · by_cases h2 : ¬ f.contains '.'
    · left
      simp only [if_neg h1, if_pos h2]
    · by_cases h3 : ((f.reverse.dropWhile (fun c => c != '.')).tail.reverse) = []
      · left
        simp only [if_neg h1, if_neg h2, if_pos h3]
      · right
        simp only [if_neg h1, if_neg h2, if_neg h3]
        exact ⟨_, rfl⟩

/-- The extension of a path is never the string "json" (it would be ".json"). -/
theorem extension_ne_json (p : String) : extension p ≠ "json" := by
  intro h
  have h1 : (splitExtension (filenameChars p.data)).2 = "json".data := by
    have := congrArg String.data h
    simpa [extension] using this
  rcases splitExtension_snd (filenameChars p.data) with h2 | ⟨t, h2⟩
  · rw [h2] at h1
    exact absurd h1 (by decide)
  · rw [h2] at h1
    have h3 := (List.cons.inj h1).1
    exact absurd h3 (by decide)

/-- The extension test of the enumeration never rejects a file: every regular
file of the directory enters the candidate pool. -/
theorem enumerateTextureFiles_eq (entries : List DirEntry) :
    enumerateTextureFiles entries =
      (entries.filter fun e => e.is_regular_file).map
        fun e => FileData.mk e.path (stem (filename e.path)) := by
  induction entries with
  | nil => rfl
  | cons e rest ih =>
    have hne : extension e.path ≠ "json" := extension_ne_json e.path
    unfold enumerateTextureFiles at ih ⊢
    cases hreg : e.is_regular_file
    · rw [List.filterMap_cons, List.filter_cons]
      simp only [hreg, Bool.false_and, Bool.false_eq_true, if_false]
      exact ih
    · rw [List.filterMap_cons, List.filter_cons]
      simp only [hreg, Bool.true_and, bne_iff_ne, ne_eq, hne, not_false_eq_true, if_true,
        List.map_cons]
      rw [ih]

/-- C3 (the manifest is kept out of the candidate pool): the code does not do
it. For the directory holding `textures.json`, `water_0.png` and `water_1.png`
the enumeration returns all three files, the manifest first with stem
"textures": its extension is ".json", which the code compares with "json". -/
theorem enumerateTextureFiles_keeps_manifest :
    extension "Data/Textures/textures.json" = ".json" ∧
    enumerateTextureFiles waterDirectory =
      [FileData.mk "Data/Textures/textures.json" "textures",
       FileData.mk "Data/Textures/water_0.png" "water_0",
       FileData.mk "Data/Textures/water_1.png" "water_1"] := by
  decide

/-- C4 (end-to-end example): the code does not return the expected database.
On the directory of the example (the manifest and the two images) `Load` throws
the leftover-files error, count 1, naming the stem "textures" of the manifest,
which the enumeration put into the candidate pool. -/
theorem Load_waterDirectory :
    Load (concreteEnv waterDirectory waterManifest waterSizes) "Data/Textures" =
      .error (.leftoverFiles 1 "textures") := by
  decide

/-- On the candidate pool of the two images alone (what the enumeration would
return if it left the manifest out) the rest of `Load` returns the database of
the end-to-end example: one group of type `Water`, frames 0 and 1, each 10 by
20 pixels and 15 by 30 in world units. -/
theorem LoadFromPool_water_images :
    LoadFromPool (concreteEnv waterDirectory waterManifest waterSizes)
        "Data/Textures/textures.json" waterManifest
        [FileData.mk "Data/Textures/water_0.png" "water_0",
         FileData.mk "Data/Textures/water_1.png" "water_1"] =
      .ok (TextureDatabase.mk [TextureGroup.mk
        [⟨⟨⟨10, 20⟩, 15, 30, false, 0, 0, ⟨.Water, 0⟩⟩, "Data/Textures/water_0.png"⟩,
         ⟨⟨⟨10, 20⟩, 15, 30, false, 0, 0, ⟨.Water, 1⟩⟩, "Data/Textures/water_1.png"⟩]]) := by
  have e1 : (15 : ℚ) = ((10 : ℤ) : ℚ) * (3 / 2) := by norm_num
  have e2 : (30 : ℚ) = ((20 : ℤ) : ℚ) * (3 / 2) := by norm_num
  rw [e1, e2]
  rfl

/-! ## Theorems: the file loop -/

/-- The file loop in closed form: the matched files are built in order, the
others stay in the pool in order. -/
theorem matchFiles_eq {F N : Type} (env : Env F N) (group : GroupDefaults F)
    (frame : FrameProperties F) (m : String → Bool) (rest : List FileData) :
    ∀ (kept : List FileData) (textureFrames : List (TextureFrameSpecification F)) (n : Nat),
      matchFiles env group frame m kept rest textureFrames n =
        match buildAll env group frame (rest.filter fun f => m f.Stem) with
        | .error e => .error e
        | .ok specs =>
          .ok (kept ++ rest.filter (fun f => !m f.Stem), textureFrames ++ specs,
            n + specs.length) := by
  induction rest with
  | nil => intro kept tf n; simp [matchFiles, buildAll]
  | cons f rest ih =>
    intro kept tf n
    cases hm : m f.Stem
    · simp only [matchFiles, hm, Bool.false_eq_true, if_false, List.filter_cons, Bool.not_false,
        if_true]
      rw [ih]
      cases buildAll env group frame (rest.filter fun f => m f.Stem) <;> simp
    · simp only [matchFiles, hm, if_true, List.filter_cons, Bool.not_true, Bool.false_eq_true,
        if_false, buildAll]
      cases hb : buildFrame env group frame f with
      | error e => simp
      | ok spec =>
        simp only []
        rw [ih]
        cases buildAll env group frame (rest.filter fun f => m f.Stem) with
        | error e => simp
        | ok specs => simp [Nat.add_comm, Nat.add_left_comm, Nat.add_assoc]

/-- A built frame keeps the path of its file. -/
theorem buildFrame_FilePath {F N : Type} {env : Env F N} {group : GroupDefaults F}
    {frame : FrameProperties F} {fileData : FileData} {spec : TextureFrameSpecification F}
    (h : buildFrame env group frame fileData = .ok spec) : spec.FilePath = fileData.Path := by
  unfold buildFrame at h
  cases h1 : extractFrameIndex env fileData.Stem with
  | error e => simp [h1] at h
  | ok frameIndex =>
    cases h2 : resolveWorldScaling group.groupWorldScaling frame.frameWorldScaling with
    | none => simp [h1, h2] at h
    | some worldScaling =>
      cases h3 : env.GetImageSize fileData.Path with
      | none => simp [h1, h2, h3] at h
      | some textureSize =>
        simp only [h1, h2, h3, Except.ok.injEq] at h
        rw [← h]

/-- A built frame means that some level supplied `worldScaling`. -/
theorem buildFrame_scaling {F N : Type} {env : Env F N} {group : GroupDefaults F}
    {frame : FrameProperties F} {fileData : FileData} {spec : TextureFrameSpecification F}
    (h : buildFrame env group frame fileData = .ok spec) :
    resolveWorldScaling group.groupWorldScaling frame.frameWorldScaling ≠ none := by
  unfold buildFrame at h
  cases h1 : extractFrameIndex env fileData.Stem with
  | error e => simp [h1] at h
  | ok frameIndex =>
    cases h2 : resolveWorldScaling group.groupWorldScaling frame.frameWorldScaling with
    | none => simp [h1, h2] at h
    | some worldScaling => simp

/-- A built frame means that the stem of the file has a frame index. -/
theorem buildFrame_index {F N : Type} {env : Env F N} {group : GroupDefaults F}
    {frame : FrameProperties F} {fileData : FileData} {spec : TextureFrameSpecification F}
    (h : buildFrame env group frame fileData = .ok spec) :
    TextureFilenameFrameIndexRegex fileData.Stem.data ≠ none := by
  unfold buildFrame at h
  cases h1 : extractFrameIndex env fileData.Stem with
  | error e => simp [h1] at h
  | ok frameIndex =>
    intro h0
    simp [extractFrameIndex, h0] at h1

/-- When all the files are built, each frame is the one built for the file at
its position. -/
theorem buildAll_ok {F N : Type} {env : Env F N} {group : GroupDefaults F}
    {frame : FrameProperties F} :
    ∀ {files : List FileData} {specs : List (TextureFrameSpecification F)},
      buildAll env group frame files = .ok specs →
      List.Forall₂ (fun f spec => buildFrame env group frame f = .ok spec) files specs := by
  intro files
  induction files with
  | nil =>
    intro specs h
    simp only [buildAll, Except.ok.injEq] at h
    subst h
    exact List.Forall₂.nil
  | cons f rest ih =>
    intro specs h
    unfold buildAll at h
    cases hb : buildFrame env group frame f with
    | error e => simp [hb] at h
    | ok spec =>
      cases hr : buildAll env group frame rest with
      | error e => simp [hb, hr] at h
      | ok ss =>
        simp only [hb, hr, Except.ok.injEq] at h
        subst h
        exact List.Forall₂.cons hb (ih hr)

/-- Every frame built was built for a file of the list. -/
theorem buildAll_mem {F N : Type} {env : Env F N} {group : GroupDefaults F}
    {frame : FrameProperties F} {files : List FileData}
    {specs : List (TextureFrameSpecification F)}
    (h : buildAll env group frame files = .ok specs) :
    ∀ spec ∈ specs, ∃ f ∈ files, buildFrame env group frame f = .ok spec := by
  have h2 := buildAll_ok h
  clear h
  induction h2 with
  | nil => intro spec hs; cases hs
  | cons hb _ ih =>
    intro spec hs
    rcases List.mem_cons.mp hs with hs | hs
    · subst hs
      exact ⟨_, List.mem_cons_self _ _, hb⟩
    · obtain ⟨f, hf, hbf⟩ := ih spec hs
      exact ⟨f, List.mem_cons_of_mem _ hf, hbf⟩

/-- The paths of the frames built are the paths of the files. -/
theorem buildAll_paths {F N : Type} {env : Env F N} {group : GroupDefaults F}
    {frame : FrameProperties F} {files : List FileData}
    {specs : List (TextureFrameSpecification F)}
    (h : buildAll env group frame files = .ok specs) :
    specs.map (fun s => s.FilePath) = files.map (fun f => f.Path) := by
  have h2 := buildAll_ok h
  clear h
  induction h2 with
  | nil => rfl
  | cons hb _ ih => simp [buildFrame_FilePath hb, ih]

/-- One frame object in closed form. -/
theorem processFrame_object {F N : Type} (env : Env F N) (group : GroupDefaults F)
    (frameJson : List (String × Json N)) (pool : List FileData)
    (textureFrames : List (TextureFrameSpecification F)) :
    processFrame env group (.object frameJson) pool textureFrames =
      match readFrameProperties env frameJson with
      | .error e => .error e
      | .ok (frame, m) =>
        match buildAll env group frame (pool.filter fun f => m f.Stem) with
        | .error e => .error e
        | .ok specs =>
          if specs.length = 0 then .error (.noFileMatched frame.frameFilename)
          else .ok (pool.filter (fun f => !m f.Stem), textureFrames ++ specs) := by
  simp only [processFrame]
  cases hr : readFrameProperties env frameJson with
  | error e => rfl
  | ok fm =>
    obtain ⟨frame, m⟩ := fm
    simp only []
    rw [matchFiles_eq]
    cases hb : buildAll env group frame (pool.filter fun f => m f.Stem) with
    | error e => rfl
    | ok specs => simp only [Nat.zero_add, List.nil_append]

/-- What a successful frame object did. -/
theorem processFrame_ok {F N : Type} {env : Env F N} {group : GroupDefaults F}
    {frameValue : Json N} {pool remaining : List FileData}
    {textureFrames frames : List (TextureFrameSpecification F)}
    (h : processFrame env group frameValue pool textureFrames = .ok (remaining, frames)) :
    ∃ frameJson frame m specs, frameValue = .object frameJson ∧
      readFrameProperties env frameJson = .ok (frame, m) ∧
      buildAll env group frame (pool.filter fun f => m f.Stem) = .ok specs ∧
      specs ≠ [] ∧ remaining = pool.filter (fun f => !m f.Stem) ∧
      frames = textureFrames ++ specs := by
  cases frameValue with
  | object frameJson =>
    rw [processFrame_object] at h
    cases hr : readFrameProperties env frameJson with
    | error e => simp [hr] at h
    | ok fm =>
      obtain ⟨frame, m⟩ := fm
      cases hb : buildAll env group frame (pool.filter fun f => m f.Stem) with
      | error e => simp [hr, hb] at h
      | ok specs =>
        simp only [hr, hb] at h
        by_cases hs : specs.length = 0
        · simp [hs] at h
        · simp only [hs, if_false, Except.ok.injEq, Prod.mk.injEq] at h
          exact ⟨frameJson, frame, m, specs, rfl, hr, hb,
            fun h0 => hs (by rw [h0]; rfl), h.1.symm, h.2.symm⟩
  | null => cases h
  | boolean b => cases h
  | number n => cases h
  | string s => cases h
  | array items => cases h

/-! ## Theorems: the frame, group and manifest loops -/

/-- What a successful validation returns. -/
theorem validateGroup_ok {F : Type} {groupName : String}
    {textureFrames : List (TextureFrameSpecification F)} {textureGroup : TextureGroup F}
    (h : validateGroup groupName textureFrames = .ok textureGroup) :
    checkFrameIndices groupName 0 (sortFrames textureFrames) = .ok () ∧
      textureGroup = TextureGroup.mk (sortFrames textureFrames) := by
  unfold validateGroup at h
  cases hc : checkFrameIndices groupName 0 (sortFrames textureFrames) with
  | error e => simp [hc] at h
  | ok u =>
    simp only [hc, Except.ok.injEq] at h
    exact ⟨rfl, h.symm⟩

/-- What a successful group object did. -/
theorem processGroup_ok {F N : Type} {env : Env F N} {groupValue : Json N}
    {pool remaining : List FileData} {textureGroup : TextureGroup F}
    (h : processGroup env groupValue pool = .ok (remaining, textureGroup)) :
    ∃ groupJson group frames textureFrames, groupValue = .object groupJson ∧
      readGroupDefaults env groupJson = .ok group ∧
      GetMandatoryJsonArray groupJson "frames" = .ok frames ∧
      processFrames env group frames pool [] = .ok (remaining, textureFrames) ∧
      validateGroup group.groupName textureFrames = .ok textureGroup := by
  cases groupValue with
  | object groupJson =>
    simp only [processGroup] at h
    cases h1 : readGroupDefaults env groupJson with
    | error e => simp [h1] at h
    | ok group =>
      cases h2 : GetMandatoryJsonArray groupJson "frames" with
      | error e => simp [h1, h2] at h
      | ok frames =>
        cases h3 : processFrames env group frames pool [] with
        | error e => simp [h1, h2, h3] at h
        | ok r =>
          obtain ⟨rem, tf⟩ := r
          cases h4 : validateGroup group.groupName tf with
          | error e => simp [h1, h2, h3, h4] at h
          | ok tg =>
            simp only [h1, h2, h3, h4, Except.ok.injEq, Prod.mk.injEq] at h
            obtain ⟨hr, hg⟩ := h
            subst hr hg
            exact ⟨groupJson, group, frames, tf, rfl, h1, h2, h3, h4⟩
  | null => cases h
  | boolean b => cases h
  | number n => cases h
  | string s => cases h
  | array items => cases h

/-- What a successful `LoadFromPool` did: the manifest is an array of groups and
the group loop drained the pool. -/
theorem LoadFromPool_ok {F N : Type} {env : Env F N} {jsonFilePath : String} {root : Json N}
    {pool : List FileData} {db : TextureDatabase F}
    (h : LoadFromPool env jsonFilePath root pool = .ok db) :
    ∃ groups, root = .array groups ∧ processGroups env groups pool [] = .ok ([], db.mGroups) := by
  cases root with
  | array groups =>
    simp only [LoadFromPool] at h
    cases h1 : processGroups env groups pool [] with
    | error e => simp [h1] at h
    | ok r =>
      obtain ⟨rem, tgs⟩ := r
      cases rem with
      | nil =>
        simp only [h1, Except.ok.injEq] at h
        subst h
        exact ⟨groups, rfl, h1⟩
      | cons f rest => simp [h1] at h
  | null => cases h
  | boolean b => cases h
  | number n => cases h
  | string s => cases h
  | object members => cases h

/-- A generic way to carry a property through the frame loop. -/
theorem processFrames_induction {F N : Type} {env : Env F N} {group : GroupDefaults F}
    (P : List FileData → List (TextureFrameSpecification F) → Prop)
    (step : ∀ frameValue pool tf pool1 tf1, P pool tf →
      processFrame env group frameValue pool tf = .ok (pool1, tf1) → P pool1 tf1) :
    ∀ (frames : List (Json N)) (pool : List FileData) (tf : List (TextureFrameSpecification F))
      (remaining : List FileData) (tf1 : List (TextureFrameSpecification F)),
      P pool tf → processFrames env group frames pool tf = .ok (remaining, tf1) →
      P remaining tf1 := by
  intro frames
  induction frames with
  | nil =>
    intro pool tf remaining tf1 hP h
    simp only [processFrames, Except.ok.injEq, Prod.mk.injEq] at h
    obtain ⟨h1, h2⟩ := h
    subst h1 h2
    exact hP
  | cons fv rest ih =>
    intro pool tf remaining tf1 hP h
    simp only [processFrames] at h
    cases h1 : processFrame env group fv pool tf with
    | error e => simp [h1] at h
    | ok r =>
      obtain ⟨p1, t1⟩ := r
      simp only [h1] at h
      exact ih p1 t1 remaining tf1 (step fv pool tf p1 t1 hP h1) h

/-- A generic way to carry a property through the group loop. -/
theorem processGroups_induction {F N : Type} {env : Env F N}
    (P : List FileData → List (TextureGroup F) → Prop)
    (step : ∀ groupValue pool tgs pool1 tg, P pool tgs →
      processGroup env groupValue pool = .ok (pool1, tg) → P pool1 (tgs ++ [tg])) :
    ∀ (groups : List (Json N)) (pool : List FileData) (tgs : List (TextureGroup F))
      (remaining : List FileData) (tgs1 : List (TextureGroup F)),
      P pool tgs → processGroups env groups pool tgs = .ok (remaining, tgs1) →
      P remaining tgs1 := by
  intro groups
  induction groups with
  | nil =>
    intro pool tgs remaining tgs1 hP h
    simp only [processGroups, Except.ok.injEq, Prod.mk.injEq] at h
    obtain ⟨h1, h2⟩ := h
    subst h1 h2
    exact hP
  | cons gv rest ih =>
    intro pool tgs remaining tgs1 hP h
    simp only [processGroups] at h
    cases h1 : processGroup env gv pool with
    | error e => simp [h1] at h
    | ok r =>
      obtain ⟨p1, tg⟩ := r
      simp only [h1] at h
      exact ih p1 (tgs ++ [tg]) remaining tgs1 (step gv pool tgs p1 tg hP h1) h

/-! ## Theorems: every file is consumed exactly once -/

/-- One frame object moves paths from the pool to the frames and loses none. -/
theorem processFrame_paths {F N : Type} {env : Env F N} {group : GroupDefaults F}
    {frameValue : Json N} {pool pool1 : List FileData}
    {tf tf1 : List (TextureFrameSpecification F)}
    (h : processFrame env group frameValue pool tf = .ok (pool1, tf1)) :
    (pool1.map (fun f => f.Path) ++ tf1.map (fun s => s.FilePath)).Perm
      (pool.map (fun f => f.Path) ++ tf.map (fun s => s.FilePath)) := by
  obtain ⟨frameJson, frame, m, specs, -, -, hb, -, hrem, htf⟩ := processFrame_ok h
  subst hrem htf
  have hp := buildAll_paths hb
  rw [List.perm_iff_count]
  intro a
  simp only [List.map_append, List.count_append, hp]
  have key : ∀ (l : List FileData),
      (List.map (fun f => f.Path) (l.filter fun f => !m f.Stem)).count a +
        (List.map (fun f => f.Path) (l.filter fun f => m f.Stem)).count a =
        (List.map (fun f => f.Path) l).count a := by
    intro l
    induction l with
    | nil => simp
    | cons x rest ih =>
      cases hm : m x.Stem <;> simp [List.filter_cons, hm, List.count_cons] <;> omega
  have := key pool
  omega

/-- The frame loop moves paths from the pool to the frames and loses none. -/
theorem processFrames_paths {F N : Type} {env : Env F N} {group : GroupDefaults F}
    {frames : List (Json N)} {pool remaining : List FileData}
    {tf tf1 : List (TextureFrameSpecification F)}
    (h : processFrames env group frames pool tf = .ok (remaining, tf1)) :
    (remaining.map (fun f => f.Path) ++ tf1.map (fun s => s.FilePath)).Perm
      (pool.map (fun f => f.Path) ++ tf.map (fun s => s.FilePath)) :=
  processFrames_induction
    (fun p t => (p.map (fun f => f.Path) ++ t.map (fun s => s.FilePath)).Perm
      (pool.map (fun f => f.Path) ++ tf.map (fun s => s.FilePath)))
    (fun _ _ _ _ _ hP hstep => (processFrame_paths hstep).trans hP)
    frames pool tf remaining tf1 (List.Perm.refl _) h

/-- Sorting permutes the frames. -/
theorem sortFrames_perm {F : Type} (tf : List (TextureFrameSpecification F)) :
    (sortFrames tf).Perm tf :=
  List.perm_insertionSort _ tf

/-- One group object moves paths from the pool to its frames and loses none. -/
theorem processGroup_paths {F N : Type} {env : Env F N} {groupValue : Json N}
    {pool remaining : List FileData} {textureGroup : TextureGroup F}
    (h : processGroup env groupValue pool = .ok (remaining, textureGroup)) :
    (remaining.map (fun f => f.Path) ++
        textureGroup.mFrameSpecifications.map (fun s => s.FilePath)).Perm
      (pool.map (fun f => f.Path)) := by
  obtain ⟨groupJson, group, frames, tf, -, -, -, hf, hv⟩ := processGroup_ok h
  obtain ⟨-, hg⟩ := validateGroup_ok hv
  subst hg
  have h1 := processFrames_paths hf
  simp only [List.map_nil, List.append_nil] at h1
  exact (List.Perm.append_left _ ((sortFrames_perm tf).map _)).trans h1

/-- The group loop moves paths from the pool to the groups and loses none. -/
theorem processGroups_paths {F N : Type} {env : Env F N} {groups : List (Json N)}
    {pool remaining : List FileData} {tgs tgs1 : List (TextureGroup F)}
    (h : processGroups env groups pool tgs = .ok (remaining, tgs1)) :
    (remaining.map (fun f => f.Path) ++
        (tgs1.flatMap fun g => g.mFrameSpecifications).map (fun s => s.FilePath)).Perm
      (pool.map (fun f => f.Path) ++
        (tgs.flatMap fun g => g.mFrameSpecifications).map (fun s => s.FilePath)) := by
  refine processGroups_induction
    (fun p t => (p.map (fun f => f.Path) ++
        (t.flatMap fun g => g.mFrameSpecifications).map (fun s => s.FilePath)).Perm
      (pool.map (fun f => f.Path) ++
        (tgs.flatMap fun g => g.mFrameSpecifications).map (fun s => s.FilePath)))
    ?_ groups pool tgs remaining tgs1 (List.Perm.refl _) h
  intro gv p t p1 tg hP hstep
  have h1 := processGroup_paths hstep
  refine List.Perm.trans ?_ hP
  rw [List.perm_iff_count]
  intro a
  have h2 := h1.count_eq a
  simp only [List.flatMap_append, List.map_append, List.count_append, List.flatMap_cons,
    List.flatMap_nil, List.append_nil] at h2 ⊢
  omega

/-- After a successful load the file paths of the frames are the paths of the
pool, each as often. -/
theorem LoadFromPool_paths {F N : Type} {env : Env F N} {jsonFilePath : String} {root : Json N}
    {pool : List FileData} {db : TextureDatabase F}
    (h : LoadFromPool env jsonFilePath root pool = .ok db) :
    ((allFrames db).map fun s => s.FilePath).Perm (pool.map fun f => f.Path) := by
  obtain ⟨groups, -, hg⟩ := LoadFromPool_ok h
  have h1 := processGroups_paths hg
  simpa [allFrames] using h1

/-- C1: if `Load` succeeds on a pool of files with pairwise distinct paths,
every file of the pool is the `FilePath` of exactly one frame specification of
the database, and the database has as many frames as the pool has files. -/
theorem Load_consumes_each_file_once {F N : Type} (env : Env F N) (jsonFilePath : String)
    (root : Json N) (pool : List FileData) (db : TextureDatabase F)
    (hdistinct : (pool.map fun f => f.Path).Nodup)
    (hload : LoadFromPool env jsonFilePath root pool = .ok db) :
    (∀ f ∈ pool, ((allFrames db).filter fun s => s.FilePath = f.Path).length = 1) ∧
      (allFrames db).length = pool.length := by
  have hperm := LoadFromPool_paths hload
  constructor
  · intro f hf
    have hmem : f.Path ∈ pool.map fun f => f.Path := List.mem_map_of_mem _ hf
    have hc : ((allFrames db).map fun s => s.FilePath).count f.Path = 1 := by
      rw [hperm.count_eq]
      exact List.count_eq_one_of_mem hdistinct hmem
    rw [← hc, List.count_eq_countP, List.countP_map, List.countP_eq_length_filter]
    congr 1
  · have := hperm.length_eq
    simpa using this

/-- C1 at the two images of the end-to-end example. -/
theorem Load_consumes_each_file_once_witness :
    (([FileData.mk "Data/Textures/water_0.png" "water_0",
        FileData.mk "Data/Textures/water_1.png" "water_1"].map fun f => f.Path).Nodup) ∧
    (∀ f ∈ [FileData.mk "Data/Textures/water_0.png" "water_0",
        FileData.mk "Data/Textures/water_1.png" "water_1"],
      ((allFrames (TextureDatabase.mk [TextureGroup.mk
        [⟨⟨⟨10, 20⟩, (15 : ℚ), 30, false, 0, 0, ⟨.Water, 0⟩⟩, "Data/Textures/water_0.png"⟩,
         ⟨⟨⟨10, 20⟩, 15, 30, false, 0, 0, ⟨.Water, 1⟩⟩, "Data/Textures/water_1.png"⟩]])).filter
        fun s => s.FilePath = f.Path).length = 1) :=
  ⟨by decide,
    (Load_consumes_each_file_once _ _ _ _ _ (by decide) LoadFromPool_water_images).1⟩

/-! ## Theorems: the frame indices of a group -/

/-- A passed index check means that the indices count up from `expectedIndex`. -/
theorem checkFrameIndices_ok {F : Type} {groupName : String} :
    ∀ {l : List (TextureFrameSpecification F)} {expectedIndex : Nat},
      checkFrameIndices groupName expectedIndex l = .ok () →
      l.map frameIndexOf = List.range' expectedIndex l.length := by
  intro l
  induction l with
  | nil => intro e _; rfl
  | cons spec rest ih =>
    intro e h
    simp only [checkFrameIndices] at h
    by_cases h1 : frameIndexOf spec < e
    · simp [h1] at h
    · by_cases h2 : frameIndexOf spec > e
      · simp [h1, h2] at h
      · simp only [h1, h2, if_false] at h
        have he : frameIndexOf spec = e := by omega
        simp [List.range'_succ, he, ih h]

/-- Indices counting up from `expectedIndex` pass the index check. -/
theorem checkFrameIndices_of_range {F : Type} (groupName : String) :
    ∀ (l : List (TextureFrameSpecification F)) (expectedIndex : Nat),
      l.map frameIndexOf = List.range' expectedIndex l.length →
      checkFrameIndices groupName expectedIndex l = .ok () := by
  intro l
  induction l with
  | nil => intro e _; rfl
  | cons spec rest ih =>
    intro e h
    simp only [List.map_cons, List.length_cons, List.range'_succ, List.cons.injEq] at h
    simp only [checkFrameIndices, h.1, lt_irrefl, if_false, gt_iff_lt]
    exact ih (e + 1) h.2

/-- Every group that the group loop stores passed the validation. -/
theorem processGroups_validated {F N : Type} {env : Env F N} {groups : List (Json N)}
    {pool remaining : List FileData} {tgs1 : List (TextureGroup F)}
    (h : processGroups env groups pool [] = .ok (remaining, tgs1)) :
    ∀ g ∈ tgs1, ∃ groupName textureFrames, validateGroup groupName textureFrames = .ok g := by
  refine processGroups_induction
    (fun _ t => ∀ g ∈ t, ∃ groupName textureFrames, validateGroup groupName textureFrames = .ok g)
    ?_ groups pool [] remaining tgs1 (by simp) h
  intro gv p t p1 tg hP hstep g hg
  rcases List.mem_append.mp hg with hg | hg
  · exact hP g hg
  · obtain ⟨groupJson, group, frames, tf, -, -, -, -, hv⟩ := processGroup_ok hstep
    simp only [List.mem_singleton] at hg
    subst hg
    exact ⟨_, _, hv⟩

/-- C2: if `Load` succeeds, then in every group of the database the frame
specification stored at position `i` has frame index `i`; the indices of a
group of `N` frames are 0, 1, ..., N-1 in this order. -/
theorem Load_frame_index_is_position {F N : Type} (env : Env F N) (jsonFilePath : String)
    (root : Json N) (pool : List FileData) (db : TextureDatabase F)
    (hload : LoadFromPool env jsonFilePath root pool = .ok db) :
    ∀ g ∈ db.mGroups,
      (∀ (i : Nat) (spec : TextureFrameSpecification F),
        g.mFrameSpecifications[i]? = some spec → spec.Metadata.FrameId.FrameIndex = i) ∧
      g.mFrameSpecifications.map (fun spec => spec.Metadata.FrameId.FrameIndex) =
        List.range g.mFrameSpecifications.length := by
  intro g hg
  obtain ⟨groups, -, hgs⟩ := LoadFromPool_ok hload
  obtain ⟨groupName, tf, hv⟩ := processGroups_validated hgs g hg
  obtain ⟨hc, hgeq⟩ := validateGroup_ok hv
  subst hgeq
  have hr := checkFrameIndices_ok hc
  rw [← List.range_eq_range'] at hr
  refine ⟨?_, hr⟩
  intro i spec hi
  have h1 : ((sortFrames tf).map frameIndexOf)[i]? = some (frameIndexOf spec) := by
    simp only [List.getElem?_map]
    simp only [] at hi
    rw [hi]
    rfl
  rw [hr] at h1
  have hlt : i < (sortFrames tf).length := by
    by_contra hge
    rw [List.getElem?_eq_none (by simpa using Nat.le_of_not_lt hge)] at h1
    cases h1
  rw [List.getElem?_range hlt] at h1
  exact (Option.some.inj h1).symm

/-- C2 at the two images of the end-to-end example: the indices of the group
`Water` are 0 and 1, in this order. -/
theorem Load_frame_index_is_position_witness :
    (TextureGroup.mk
        [⟨⟨⟨10, 20⟩, (15 : ℚ), 30, false, 0, 0, ⟨.Water, 0⟩⟩, "Data/Textures/water_0.png"⟩,
         ⟨⟨⟨10, 20⟩, 15, 30, false, 0, 0, ⟨.Water, 1⟩⟩,
          "Data/Textures/water_1.png"⟩]).mFrameSpecifications.map
        (fun spec => spec.Metadata.FrameId.FrameIndex) = List.range 2 :=
  (Load_frame_index_is_position _ _ _ _ _ LoadFromPool_water_images _
    (List.mem_singleton.mpr rfl)).2

/-! ## Theorems: frame index extraction -/

/-- The tail of the regular expression rejects an input that holds an
underscore. -/
theorem digitsToEnd_underscore (P D : List Char) : digitsToEnd (P ++ '_' :: D) = false := by
  have h : (P ++ '_' :: D).all Char.isDigit = false := by
    rw [List.all_eq_false]
    exact ⟨'_', by simp, by decide⟩
  simp [digitsToEnd, h]

/-- After the first character: a run without line terminators, an underscore
and digits up to the end match, and the sub-match is the digits. -/
theorem frameIndexAfterDot_of_form (D : List Char) (hD : digitsToEnd D = true) :
    ∀ P : List Char, (∀ c ∈ P, isLineTerminator c = false) →
      frameIndexAfterDot (P ++ '_' :: D) = some D := by
  intro P
  induction P with
  | nil => intro _; simp [frameIndexAfterDot, hD]
  | cons c rest ih =>
    intro hP
    have hc : isLineTerminator c = false := hP c (List.mem_cons_self _ _)
    have hrest : ∀ x ∈ rest, isLineTerminator x = false :=
      fun x hx => hP x (List.mem_cons_of_mem _ hx)
    have hd := digitsToEnd_underscore rest D
    rw [List.cons_append, frameIndexAfterDot]
    simp only [hd, hc, Bool.false_eq_true, and_false, if_false]
    exact ih hrest

/-- After the first character: a match splits the input into a run without line
terminators, an underscore and the digits of the sub-match. -/
theorem frameIndexAfterDot_some :
    ∀ (s D : List Char), frameIndexAfterDot s = some D →
      ∃ P, s = P ++ '_' :: D ∧ (∀ c ∈ P, isLineTerminator c = false) ∧ digitsToEnd D = true := by
  intro s
  induction s with
  | nil => intro D h; simp [frameIndexAfterDot] at h
  | cons c rest ih =>
    intro D h
    simp only [frameIndexAfterDot] at h
    by_cases h1 : c = '_' ∧ digitsToEnd rest = true
    · simp only [h1, and_self, if_true, Option.some.injEq] at h
      subst h
      exact ⟨[], by simp [h1.1], by simp, h1.2⟩
    · simp only [h1, if_false] at h
      cases hc : isLineTerminator c
      · simp only [hc, Bool.false_eq_true, if_false] at h
        obtain ⟨P, hP, hl, hd⟩ := ih D h
        refine ⟨c :: P, by simp [hP], ?_, hd⟩
        intro x hx
        rcases List.mem_cons.mp hx with hx | hx
        · rw [hx]; exact hc
        · exact hl x hx
      · simp [hc] at h

/-- The regular expression `^.+?_(\d+)$` matches exactly the strings made of a
non-empty run without line terminators, an underscore, and one or more digits;
the sub-match is the digits. -/
theorem TextureFilenameFrameIndexRegex_eq_some (s D : List Char) :
    TextureFilenameFrameIndexRegex s = some D ↔
      ∃ P, s = P ++ '_' :: D ∧ P ≠ [] ∧ (∀ c ∈ P, isLineTerminator c = false) ∧
        digitsToEnd D = true := by
  constructor
  · intro h
    cases s with
    | nil => simp [TextureFilenameFrameIndexRegex] at h
    | cons c rest =>
      simp only [TextureFilenameFrameIndexRegex] at h
      cases hc : isLineTerminator c
      · simp only [hc, Bool.false_eq_true, if_false] at h
        obtain ⟨P, hP, hl, hd⟩ := frameIndexAfterDot_some rest D h
        refine ⟨c :: P, by simp [hP], by simp, ?_, hd⟩
        intro x hx
        rcases List.mem_cons.mp hx with hx | hx
        · rw [hx]; exact hc
        · exact hl x hx
      · simp [hc] at h
  · rintro ⟨P, hs, hne, hl, hd⟩
    cases P with
    | nil => exact absurd rfl hne
    | cons c rest =>
      subst hs
      have hc : isLineTerminator c = false := hl c (List.mem_cons_self _ _)
      simp only [List.cons_append, TextureFilenameFrameIndexRegex, hc, Bool.false_eq_true,
        if_false]
      exact frameIndexAfterDot_of_form D hd rest (fun x hx => hl x (List.mem_cons_of_mem _ hx))

/-- The test `digitsToEnd` spelled out. -/
theorem digitsToEnd_iff (D : List Char) :
    digitsToEnd D = true ↔ D ≠ [] ∧ ∀ c ∈ D, c.isDigit = true := by
  simp [digitsToEnd]

/-- C7, as the code has it: a stem made of one or more characters other than
line terminators, an underscore, and one or more decimal digits whose value is at
most `INT_MAX` yields that value, converted to `TextureFrameIndex`, as frame
index; a stem that does not end in an underscore followed by digits makes
`Load` fail with the "cannot find frame index" error. -/
theorem extractFrameIndex_spec {F N : Type} (env : Env F N) (stem : String) :
    (∀ P D : List Char, stem.data = P ++ '_' :: D → P ≠ [] →
      (∀ c ∈ P, isLineTerminator c = false) → D ≠ [] → (∀ c ∈ D, c.isDigit = true) →
      decimalValue D ≤ 2147483647 →
      extractFrameIndex env stem = .ok (decimalValue D % 2 ^ env.FrameIndexBits)) ∧
    ((¬ ∃ P D : List Char, stem.data = P ++ '_' :: D ∧ D ≠ [] ∧ ∀ c ∈ D, c.isDigit = true) →
      extractFrameIndex env stem = .error (.cannotFindFrameIndex stem)) := by
  constructor
  · intro P D hs hP hl hD hdig hmax
    have hm : TextureFilenameFrameIndexRegex stem.data = some D :=
      (TextureFilenameFrameIndexRegex_eq_some _ _).mpr
        ⟨P, hs, hP, hl, (digitsToEnd_iff D).mpr ⟨hD, hdig⟩⟩
    simp [extractFrameIndex, hm, stoi, hmax]
  · intro hno
    cases hm : TextureFilenameFrameIndexRegex stem.data with
    | none => simp [extractFrameIndex, hm]
    | some D =>
      obtain ⟨P, hs, -, -, hd⟩ := (TextureFilenameFrameIndexRegex_eq_some _ _).mp hm
      exact absurd ⟨P, D, hs, (digitsToEnd_iff D).mp hd⟩ hno

/-- C7 at the stems of the claim: `cloud_007` yields frame index 7, and `cloud`
fails with the "cannot find frame index" error. -/
theorem extractFrameIndex_spec_witness :
    extractFrameIndex (concreteEnv [] .null squareSizes) "cloud_007" = .ok 7 ∧
    extractFrameIndex (concreteEnv [] .null squareSizes) "cloud" =
      .error (.cannotFindFrameIndex "cloud") :=
  ⟨(extractFrameIndex_spec (concreteEnv [] .null squareSizes) "cloud_007").1
      "cloud".data "007".data (by decide) (by decide) (by decide) (by decide) (by decide)
      (by decide),
    (extractFrameIndex_spec (concreteEnv [] .null squareSizes) "cloud").2 (by
      rintro ⟨P, D, hs, hD, hdig⟩
      have hlast : ("cloud".data).getLast? = (P ++ '_' :: D).getLast? := by rw [hs]
      have hmem : ∀ c, (P ++ '_' :: D).getLast? = some c → c ∈ D := by
        intro c hc
        cases D with
        | nil => exact absurd rfl hD
        | cons d rest =>
          have : (P ++ '_' :: d :: rest).getLast? = (d :: rest).getLast? := by
            rw [show P ++ '_' :: d :: rest = (P ++ ['_']) ++ (d :: rest) by simp]
            exact List.getLast?_append_of_ne_nil _ (by simp)
          rw [this] at hc
          exact List.mem_of_getLast?_eq_some hc
      have h1 : ("cloud".data).getLast? = some 'd' := by decide
      rw [h1] at hlast
      have := hdig 'd' (hmem 'd' hlast.symm)
      exact absurd this (by decide))⟩

/-- C7 as stated fails: the stem `_7` ends in an underscore followed by a digit
and is matched by the frame pattern `_\d+`, yet `Load` fails with the "cannot
find frame index" error, because `.+?` needs a character before the underscore;
and the stem `a_2147483648`, matched by `a_\d+`, makes `std::stoi` throw. -/
theorem extractFrameIndex_counterexample :
    ("_7".data = [] ++ '_' :: "7".data ∧ "7".data.all Char.isDigit = true) ∧
    LoadFromPool (concreteEnv [] (cloudManifest "_\\d+") squareSizes) "t/textures.json"
        (cloudManifest "_\\d+") [pngFile "_7"] = .error (.cannotFindFrameIndex "_7") ∧
    LoadFromPool (concreteEnv [] (cloudManifest "a_\\d+") squareSizes) "t/textures.json"
        (cloudManifest "a_\\d+") [pngFile "a_2147483648"] =
      .error (.stoiOutOfRange "2147483648") := by
  decide

/-! ## Theorems: property resolution -/

/-- The frame built for a file, once the index, the scaling and the image size
are known. -/
theorem buildFrame_eq {F N : Type} (env : Env F N) (group : GroupDefaults F)
    (frame : FrameProperties F) (fileData : FileData) (frameIndex : Nat) (worldScaling : F)
    (textureSize : ImageSize)
    (hidx : extractFrameIndex env fileData.Stem = .ok frameIndex)
    (hscale : resolveWorldScaling group.groupWorldScaling frame.frameWorldScaling =
      some worldScaling)
    (hsize : env.GetImageSize fileData.Path = some textureSize) :
    buildFrame env group frame fileData = .ok {
      Metadata := {
        Size := textureSize
        WorldWidth := env.fmul (env.intToFloat textureSize.Width) worldScaling
        WorldHeight := env.fmul (env.intToFloat textureSize.Height) worldScaling
        HasOwnAmbientLight := frame.frameHasOwnAmbientLight.getD group.groupHasOwnAmbientLight
        AnchorX := frame.frameAnchorX.getD group.groupAnchorX
        AnchorY := frame.frameAnchorY.getD group.groupAnchorY
        FrameId := TextureFrameId.mk group.groupType frameIndex }
      FilePath := fileData.Path } := by
  unfold buildFrame
  simp only [hidx, hscale, hsize]
  cases frame.frameHasOwnAmbientLight <;> cases frame.frameAnchorX <;>
    cases frame.frameAnchorY <;> rfl

/-- C5: for a file matched by a frame pattern (its stem carrying a frame index,
its image size known), the world scaling used is the frame-level one when the
frame supplies one, whatever the group says, and the group-level one when the
frame supplies none; the frame is built, and its world width and height are
the pixel width and height times that scaling. -/
theorem buildFrame_world_size {F N : Type} (env : Env F N) (group : GroupDefaults F)
    (frame : FrameProperties F) (fileData : FileData) (frameIndex : Nat)
    (textureSize : ImageSize)
    (hidx : extractFrameIndex env fileData.Stem = .ok frameIndex)
    (hsize : env.GetImageSize fileData.Path = some textureSize) :
    (∀ s, frame.frameWorldScaling = some s →
      ∃ spec, buildFrame env group frame fileData = .ok spec ∧
        spec.Metadata.Size = textureSize ∧
        spec.Metadata.WorldWidth = env.fmul (env.intToFloat textureSize.Width) s ∧
        spec.Metadata.WorldHeight = env.fmul (env.intToFloat textureSize.Height) s) ∧
    (frame.frameWorldScaling = none → ∀ s, group.groupWorldScaling = some s →
      ∃ spec, buildFrame env group frame fileData = .ok spec ∧
        spec.Metadata.Size = textureSize ∧
        spec.Metadata.WorldWidth = env.fmul (env.intToFloat textureSize.Width) s ∧
        spec.Metadata.WorldHeight = env.fmul (env.intToFloat textureSize.Height) s) := by
  constructor
  · intro s hs
    have hscale : resolveWorldScaling group.groupWorldScaling frame.frameWorldScaling =
        some s := by
      rw [hs]
      cases group.groupWorldScaling <;> rfl
    exact ⟨_, buildFrame_eq env group frame fileData frameIndex s textureSize hidx hscale hsize,
      rfl, rfl, rfl⟩
  · intro hnone s hs
    have hscale : resolveWorldScaling group.groupWorldScaling frame.frameWorldScaling =
        some s := by
      rw [hnone, hs]
      rfl
    exact ⟨_, buildFrame_eq env group frame fileData frameIndex s textureSize hidx hscale hsize,
      rfl, rfl, rfl⟩

/-- C5 at the example of the claim: with group scale 2 and frame scale 3, a
file of 4 by 4 pixels gets the world width 4 x 3, not 4 x 2. -/
theorem buildFrame_world_size_witness :
    ∃ spec, buildFrame (concreteEnv [] .null squareSizes)
        (GroupDefaults.mk "cloud" .Cloud (some 2) false 0 0)
        (FrameProperties.mk (some 3) none none none "cloud_\\d+") (pngFile "cloud_0") = .ok spec ∧
      spec.Metadata.Size = ImageSize.mk 4 4 ∧
      spec.Metadata.WorldWidth = (4 : ℚ) * 3 ∧
      spec.Metadata.WorldHeight = (4 : ℚ) * 3 :=
  (buildFrame_world_size (concreteEnv [] .null squareSizes)
    (GroupDefaults.mk "cloud" .Cloud (some 2) false 0 0)
    (FrameProperties.mk (some 3) none none none "cloud_\\d+") (pngFile "cloud_0") 0
    (ImageSize.mk 4 4) (by decide) rfl).1 3 rfl

/-! ## Theorems: the mandatory scale -/

/-- What the defaults of a group were read from. -/
theorem readGroupDefaults_ok {F N : Type} {env : Env F N} {groupJson : List (String × Json N)}
    {group : GroupDefaults F} (h : readGroupDefaults env groupJson = .ok group) :
    GetMandatoryJsonString groupJson "groupName" = .ok group.groupName ∧
    StrToTextureGroupType group.groupName = .ok group.groupType ∧
    GetOptionalJsonFloat env groupJson "worldScaling" = .ok group.groupWorldScaling ∧
    withDefault (GetOptionalJsonBool groupJson "hasOwnAmbientLight") false =
      .ok group.groupHasOwnAmbientLight ∧
    withDefault (GetOptionalJsonInt env groupJson "anchorX") 0 = .ok group.groupAnchorX ∧
    withDefault (GetOptionalJsonInt env groupJson "anchorY") 0 = .ok group.groupAnchorY := by
  unfold readGroupDefaults at h
  cases h1 : GetMandatoryJsonString groupJson "groupName" with
  | error e => simp [h1] at h
  | ok groupName =>
  cases h2 : StrToTextureGroupType groupName with
  | error e => simp [h1, h2] at h
  | ok groupType =>
  cases h3 : GetOptionalJsonFloat env groupJson "worldScaling" with
  | error e => simp [h1, h2, h3] at h
  | ok ws =>
  cases h4 : withDefault (GetOptionalJsonBool groupJson "hasOwnAmbientLight") false with
  | error e => simp [h1, h2, h3, h4] at h
  | ok al =>
  cases h5 : withDefault (GetOptionalJsonInt env groupJson "anchorX") 0 with
  | error e => simp [h1, h2, h3, h4, h5] at h
  | ok ax =>
  cases h6 : withDefault (GetOptionalJsonInt env groupJson "anchorY") 0 with
  | error e => simp [h1, h2, h3, h4, h5, h6] at h
  | ok ay =>
    simp only [h1, h2, h3, h4, h5, h6, Except.ok.injEq] at h
    subst h
    exact ⟨rfl, h2, rfl, rfl, rfl, rfl⟩

/-- What the properties of a frame were read from. -/
theorem readFrameProperties_ok {F N : Type} {env : Env F N} {frameJson : List (String × Json N)}
    {frame : FrameProperties F} {m : String → Bool}
    (h : readFrameProperties env frameJson = .ok (frame, m)) :
    GetOptionalJsonFloat env frameJson "worldScaling" = .ok frame.frameWorldScaling ∧
    GetOptionalJsonBool frameJson "hasOwnAmbientLight" = .ok frame.frameHasOwnAmbientLight ∧
    GetOptionalJsonInt env frameJson "anchorX" = .ok frame.frameAnchorX ∧
    GetOptionalJsonInt env frameJson "anchorY" = .ok frame.frameAnchorY ∧
    GetMandatoryJsonString frameJson "filename" = .ok frame.frameFilename ∧
    env.regex ("^" ++ frame.frameFilename ++ "$") = some m := by
  unfold readFrameProperties at h
  cases h1 : GetOptionalJsonFloat env frameJson "worldScaling" with
  | error e => simp [h1] at h
  | ok ws =>
  cases h2 : GetOptionalJsonBool frameJson "hasOwnAmbientLight" with
  | error e => simp [h1, h2] at h
  | ok al =>
  cases h3 : GetOptionalJsonInt env frameJson "anchorX" with
  | error e => simp [h1, h2, h3] at h
  | ok ax =>
  cases h4 : GetOptionalJsonInt env frameJson "anchorY" with
  | error e => simp [h1, h2, h3, h4] at h
  | ok ay =>
  cases h5 : GetMandatoryJsonString frameJson "filename" with
  | error e => simp [h1, h2, h3, h4, h5] at h
  | ok fname =>
  cases h6 : env.regex ("^" ++ fname ++ "$") with
  | none => simp [h1, h2, h3, h4, h5, h6] at h
  | some rx =>
    simp only [h1, h2, h3, h4, h5, h6, Except.ok.injEq, Prod.mk.injEq] at h
    obtain ⟨hf, hm⟩ := h
    subst hf hm
    exact ⟨rfl, rfl, rfl, rfl, rfl, h6⟩

/-- A successful frame loop processed every frame object successfully. -/
theorem processFrames_each {F N : Type} {env : Env F N} {group : GroupDefaults F} :
    ∀ {frames : List (Json N)} {pool : List FileData}
      {tf : List (TextureFrameSpecification F)}
      {r : List FileData × List (TextureFrameSpecification F)},
      processFrames env group frames pool tf = .ok r →
      ∀ fv ∈ frames, ∃ p t p1 t1, processFrame env group fv p t = .ok (p1, t1) := by
  intro frames
  induction frames with
  | nil => intro _ _ _ _ fv hfv; cases hfv
  | cons x rest ih =>
    intro pool tf r h fv hfv
    simp only [processFrames] at h
    cases h1 : processFrame env group x pool tf with
    | error e => simp [h1] at h
    | ok r1 =>
      obtain ⟨p1, t1⟩ := r1
      simp only [h1] at h
      rcases List.mem_cons.mp hfv with hfv | hfv
      · subst hfv
        exact ⟨pool, tf, p1, t1, h1⟩
      · exact ih h fv hfv

/-- A successful group loop processed every group object successfully. -/
theorem processGroups_each {F N : Type} {env : Env F N} :
    ∀ {groups : List (Json N)} {pool : List FileData} {tgs : List (TextureGroup F)}
      {r : List FileData × List (TextureGroup F)},
      processGroups env groups pool tgs = .ok r →
      ∀ gv ∈ groups, ∃ p p1 tg, processGroup env gv p = .ok (p1, tg) := by
  intro groups
  induction groups with
  | nil => intro _ _ _ _ gv hgv; cases hgv
  | cons x rest ih =>
    intro pool tgs r h gv hgv
    simp only [processGroups] at h
    cases h1 : processGroup env x pool with
    | error e => simp [h1] at h
    | ok r1 =>
      obtain ⟨p1, tg⟩ := r1
      simp only [h1] at h
      rcases List.mem_cons.mp hgv with hgv | hgv
      · subst hgv
        exact ⟨pool, p1, tg, h1⟩
      · exact ih h gv hgv

/-- A frame object that was processed successfully got `worldScaling` from its
own level or from its group. -/
theorem processFrame_ok_scaling {F N : Type} {env : Env F N} {group : GroupDefaults F}
    {frameJson : List (String × Json N)} {pool pool1 : List FileData}
    {tf tf1 : List (TextureFrameSpecification F)}
    (h : processFrame env group (.object frameJson) pool tf = .ok (pool1, tf1)) :
    ¬ (group.groupWorldScaling = none ∧ findMember frameJson "worldScaling" = none) := by
  rintro ⟨hg, hf⟩
  obtain ⟨frameJson1, frame, m, specs, hobj, hread, hb, hne, -, -⟩ := processFrame_ok h
  cases hobj
  have hws := (readFrameProperties_ok hread).1
  simp only [GetOptionalJsonFloat, hf, Except.ok.injEq] at hws
  cases specs with
  | nil => exact hne rfl
  | cons spec rest =>
    obtain ⟨f, -, hb1⟩ := buildAll_mem hb spec (List.mem_cons_self _ _)
    have := buildFrame_scaling hb1
    rw [hg, ← hws] at this
    exact this rfl

/-- C6, as the code has it: when a frame object and its group object both omit
`worldScaling`, `Load` never returns a database, whatever the pool; and a file
matched by that frame whose stem carries a frame index makes the file loop fail
with the missing-"worldScaling" error. (Which error `Load` reports depends on
what fails first: see `Load_unscaled_counterexample`.) -/
theorem Load_fails_without_worldScaling {F N : Type} (env : Env F N) (jsonFilePath : String)
    (groups : List (Json N)) (pool : List FileData)
    (groupJson : List (String × Json N)) (frames : List (Json N))
    (frameJson : List (String × Json N))
    (hgroup : Json.object groupJson ∈ groups)
    (hgroupScale : findMember groupJson "worldScaling" = none)
    (hframes : findMember groupJson "frames" = some (.array frames))
    (hframe : Json.object frameJson ∈ frames)
    (hframeScale : findMember frameJson "worldScaling" = none) :
    (∀ db : TextureDatabase F, LoadFromPool env jsonFilePath (.array groups) pool ≠ .ok db) ∧
    (∀ (group : GroupDefaults F) (frame : FrameProperties F) (m : String → Bool)
        (fileData : FileData) (frameIndex : Nat),
      readGroupDefaults env groupJson = .ok group →
      readFrameProperties env frameJson = .ok (frame, m) →
      extractFrameIndex env fileData.Stem = .ok frameIndex →
      buildFrame env group frame fileData = .error (.missingWorldScaling frame.frameFilename)) := by
  constructor
  · intro db hload
    obtain ⟨groups1, hroot, hgs⟩ := LoadFromPool_ok hload
    cases hroot
    obtain ⟨p, p1, tg, hpg⟩ := processGroups_each hgs _ hgroup
    obtain ⟨groupJson1, group, frames1, tf, hobj, hread, harr, hpf, -⟩ := processGroup_ok hpg
    cases hobj
    simp only [GetMandatoryJsonArray, hframes, Except.ok.injEq] at harr
    subst harr
    obtain ⟨q, t, q1, t1, hfr⟩ := processFrames_each hpf _ hframe
    have hws := (readGroupDefaults_ok hread).2.2.1
    simp only [GetOptionalJsonFloat, hgroupScale, Except.ok.injEq] at hws
    exact processFrame_ok_scaling hfr ⟨hws.symm, hframeScale⟩
  · intro group frame m fileData frameIndex hg hf hidx
    have hgs := (readGroupDefaults_ok hg).2.2.1
    simp only [GetOptionalJsonFloat, hgroupScale, Except.ok.injEq] at hgs
    have hfs := (readFrameProperties_ok hf).1
    simp only [GetOptionalJsonFloat, hframeScale, Except.ok.injEq] at hfs
    unfold buildFrame
    simp only [hidx, ← hgs, ← hfs, resolveWorldScaling]

/-- C6 at the manifest with one group "cloud" and one frame `a_\d+`, neither
with `worldScaling`, and the pool of the single file `a_0`. -/
theorem Load_fails_without_worldScaling_witness :
    (∀ db : TextureDatabase ℚ,
      LoadFromPool (concreteEnv [] (unscaledManifest "a_\\d+") squareSizes) "t/textures.json"
        (unscaledManifest "a_\\d+") [pngFile "a_0"] ≠ .ok db) ∧
    buildFrame (concreteEnv [] (unscaledManifest "a_\\d+") squareSizes)
        (GroupDefaults.mk "cloud" .Cloud none false 0 0)
        (FrameProperties.mk none none none none "a_\\d+") (pngFile "a_0") =
      .error (.missingWorldScaling "a_\\d+") :=
  have h := Load_fails_without_worldScaling
    (concreteEnv [] (unscaledManifest "a_\\d+") squareSizes) "t/textures.json"
    [.object [("groupName", .string "cloud"),
      ("frames", .array [.object [("filename", .string "a_\\d+")]])]]
    [pngFile "a_0"]
    [("groupName", .string "cloud"),
      ("frames", .array [.object [("filename", .string "a_\\d+")]])]
    [.object [("filename", .string "a_\\d+")]]
    [("filename", .string "a_\\d+")]
    (List.mem_singleton.mpr rfl) rfl rfl (List.mem_singleton.mpr rfl) rfl
  ⟨h.1, h.2 (GroupDefaults.mk "cloud" .Cloud none false 0 0)
    (FrameProperties.mk none none none none "a_\\d+")
    (fun s => matchRegexItems
      [(.literal 'a', .one), (.literal '_', .one), (.digit, .plus)] s.data)
    (pngFile "a_0") 0 rfl rfl (by decide)⟩

/-- C6 as stated fails: with `worldScaling` omitted at both levels, `Load`
reports the "couldn't match any file" error when the pattern matches no file of
the pool, and the "cannot find frame index" error when the matched stem has no
index; the missing-"worldScaling" error is reported only in the third case. -/
theorem Load_unscaled_counterexample :
    LoadFromPool (concreteEnv [] (unscaledManifest "a_\\d+") squareSizes) "t/textures.json"
        (unscaledManifest "a_\\d+") [pngFile "b_0"] = .error (.noFileMatched "a_\\d+") ∧
    LoadFromPool (concreteEnv [] (unscaledManifest "a") squareSizes) "t/textures.json"
        (unscaledManifest "a") [pngFile "a"] = .error (.cannotFindFrameIndex "a") ∧
    LoadFromPool (concreteEnv [] (unscaledManifest "a_\\d+") squareSizes) "t/textures.json"
        (unscaledManifest "a_\\d+") [pngFile "a_0"] = .error (.missingWorldScaling "a_\\d+") := by
  decide

/-! ## Theorems: gaps and duplicates -/

/-- The indices of the sorted frames are the sorted indices of the frames. -/
theorem sortFrames_indices {F : Type} (tf : List (TextureFrameSpecification F)) :
    (sortFrames tf).map frameIndexOf = (tf.map frameIndexOf).insertionSort (· ≤ ·) :=
  List.map_insertionSort frameIndexLE (· ≤ ·) frameIndexOf tf (fun _ _ _ _ => Iff.rfl)

/-- The indices of the sorted frames are the one sorted arrangement of the
indices of the frames. -/
theorem sortFrames_indices_eq {F : Type} {tf : List (TextureFrameSpecification F)}
    {L : List Nat} (hperm : (tf.map frameIndexOf).Perm L) (hsorted : L.Sorted (· ≤ ·)) :
    (sortFrames tf).map frameIndexOf = L := by
  rw [sortFrames_indices]
  exact List.eq_of_perm_of_sorted ((List.perm_insertionSort _ _).trans hperm)
    (List.sorted_insertionSort _ _) hsorted

/-- The index check stops with the missing-frame error at the first index that
exceeds its position, when the indices before count up. -/
theorem checkFrameIndices_missing {F : Type} (groupName : String) :
    ∀ (n : Nat) (l : List (TextureFrameSpecification F)) (e x : Nat) (rest : List Nat),
      l.map frameIndexOf = List.range' e n ++ x :: rest → e + n < x →
      checkFrameIndices groupName e l = .error (.missingFrame (e + n) groupName) := by
  intro n
  induction n with
  | zero =>
    intro l e x rest hl hx
    cases l with
    | nil => simp at hl
    | cons spec l1 =>
      simp only [List.range'_zero, List.nil_append, List.map_cons, List.cons.injEq] at hl
      have h1 : ¬ frameIndexOf spec < e := by omega
      have h2 : frameIndexOf spec > e := by omega
      simp [checkFrameIndices, h1, h2]
  | succ n ih =>
    intro l e x rest hl hx
    cases l with
    | nil => simp [List.range'_succ] at hl
    | cons spec l1 =>
      simp only [List.range'_succ, List.cons_append, List.map_cons, List.cons.injEq] at hl
      have h := ih l1 (e + 1) x rest hl.2 (by omega)
      simp only [checkFrameIndices, hl.1, lt_irrefl, if_false, gt_iff_lt, h]
      congr 2
      omega

/-- The index check stops with the duplicate-frame error at the first index
below its position, when the indices before count up. -/
theorem checkFrameIndices_duplicate {F : Type} (groupName : String) :
    ∀ (n : Nat) (l : List (TextureFrameSpecification F)) (e x : Nat) (rest : List Nat),
      l.map frameIndexOf = List.range' e n ++ x :: rest → x < e + n →
      checkFrameIndices groupName e l = .error (.duplicateFrame x groupName) := by
  intro n
  induction n with
  | zero =>
    intro l e x rest hl hx
    cases l with
    | nil => simp at hl
    | cons spec l1 =>
      simp only [List.range'_zero, List.nil_append, List.map_cons, List.cons.injEq] at hl
      have h1 : x < e := by omega
      simp only [checkFrameIndices, hl.1, if_pos h1]
  | succ n ih =>
    intro l e x rest hl hx
    cases l with
    | nil => simp [List.range'_succ] at hl
    | cons spec l1 =>
      simp only [List.range'_succ, List.cons_append, List.map_cons, List.cons.injEq] at hl
      have h := ih l1 (e + 1) x rest hl.2 (by omega)
      simp only [checkFrameIndices, hl.1, lt_irrefl, if_false, gt_iff_lt, h]

/-- The numbers below `N` without `k`, in ascending order. -/
theorem range_erase (N k : Nat) (hk : k + 1 < N) :
    (List.range N).erase k = List.range' 0 k ++ (k + 1) :: List.range' (k + 2) (N - k - 2) := by
  have h1 : List.range N = List.range' 0 k ++ k :: (k + 1) :: List.range' (k + 2) (N - k - 2) := by
    have e1 : N = ((N - k - 2) + 1 + 1) + k := by omega
    have e2 := List.range'_append_1 0 k ((N - k - 2) + 1 + 1)
    rw [← e1, List.range'_succ, List.range'_succ] at e2
    rw [List.range_eq_range', ← e2]
    simp [Nat.add_assoc]
  rw [h1, List.erase_append_right _ (by simp), List.erase_cons_head]

/-- C8 (gap detection): for every N >= 3 and every k with 0 < k < N-1, if the
frames built for a group have exactly the indices 0..N-1 without k, in any
order, the validation of the group fails with the missing-frame error, and the
index named in the error is k. -/
theorem validateGroup_gap {F : Type} (groupName : String)
    (textureFrames : List (TextureFrameSpecification F)) (N k : Nat)
    (hN : 3 ≤ N) (_hk0 : 0 < k) (hk : k < N - 1)
    (hindices : (textureFrames.map fun spec => spec.Metadata.FrameId.FrameIndex).Perm
      ((List.range N).erase k)) :
    validateGroup groupName textureFrames = .error (.missingFrame k groupName) := by
  have hk1 : k + 1 < N := by omega
  rw [range_erase N k hk1] at hindices
  have hsorted : (List.range' 0 k ++ (k + 1) :: List.range' (k + 2) (N - k - 2)).Sorted
      (· ≤ ·) := by
    rw [List.Sorted, List.pairwise_append]
    refine ⟨List.pairwise_le_range' 0 k, ?_, ?_⟩
    · rw [List.pairwise_cons]
      refine ⟨?_, List.pairwise_le_range' _ _⟩
      intro a ha
      rw [List.mem_range'_1] at ha
      omega
    · intro a ha b hb
      rw [List.mem_range'_1] at ha
      rcases List.mem_cons.mp hb with hb | hb
      · omega
      · rw [List.mem_range'_1] at hb
        omega
  have hperm : (textureFrames.map frameIndexOf).Perm
      (List.range' 0 k ++ (k + 1) :: List.range' (k + 2) (N - k - 2)) := hindices
  have hs := sortFrames_indices_eq hperm hsorted
  have hc := checkFrameIndices_missing groupName k (sortFrames textureFrames) 0 (k + 1) _ hs
    (by omega)
  simp only [validateGroup, hc, Nat.zero_add]

/-- C9 (duplicate detection): if the frames built for a group have the indices
0..N-1 each once and one more frame whose index k is among them, in any order,
the validation of the group fails with the duplicate-frame error, and the index
named in the error is k. -/
theorem validateGroup_duplicate {F : Type} (groupName : String)
    (textureFrames : List (TextureFrameSpecification F)) (N k : Nat) (hk : k < N)
    (hindices : (textureFrames.map fun spec => spec.Metadata.FrameId.FrameIndex).Perm
      (k :: List.range N)) :
    validateGroup groupName textureFrames = .error (.duplicateFrame k groupName) := by
  have hrange : List.range N = List.range' 0 (k + 1) ++ List.range' (k + 1) (N - k - 1) := by
    have e1 : N = (N - k - 1) + (k + 1) := by omega
    have e2 := List.range'_append_1 0 (k + 1) (N - k - 1)
    rw [← e1] at e2
    rw [List.range_eq_range', ← e2]
    simp
  have hperm : (textureFrames.map frameIndexOf).Perm
      (List.range' 0 (k + 1) ++ k :: List.range' (k + 1) (N - k - 1)) := by
    refine List.Perm.trans hindices ?_
    rw [hrange]
    exact List.perm_middle.symm
  have hsorted : (List.range' 0 (k + 1) ++ k :: List.range' (k + 1) (N - k - 1)).Sorted
      (· ≤ ·) := by
    rw [List.Sorted, List.pairwise_append]
    refine ⟨List.pairwise_le_range' 0 (k + 1), ?_, ?_⟩
    · rw [List.pairwise_cons]
      refine ⟨?_, List.pairwise_le_range' _ _⟩
      intro a ha
      rw [List.mem_range'_1] at ha
      omega
    · intro a ha b hb
      rw [List.mem_range'_1] at ha
      rcases List.mem_cons.mp hb with hb | hb
      · omega
      · rw [List.mem_range'_1] at hb
        omega
  have hs := sortFrames_indices_eq hperm hsorted
  have hc := checkFrameIndices_duplicate groupName (k + 1) (sortFrames textureFrames) 0 k _ hs
    (by omega)
  simp only [validateGroup, hc]

/-- C8 at N = 4 and k = 2: the frames 3, 0, 1. -/
theorem validateGroup_gap_witness :
    (3 ≤ 4 ∧ 0 < 2 ∧ 2 < 4 - 1) ∧
    validateGroup "cloud" [cloudFrame 3, cloudFrame 0, cloudFrame 1] =
      .error (.missingFrame 2 "cloud") :=
  ⟨by decide,
    validateGroup_gap "cloud" [cloudFrame 3, cloudFrame 0, cloudFrame 1] 4 2 (by decide)
      (by decide) (by decide) (by decide)⟩

/-- C9 at N = 3 and k = 1: the frames 2, 1, 0, 1. -/
theorem validateGroup_duplicate_witness :
    1 < 3 ∧
    validateGroup "cloud" [cloudFrame 2, cloudFrame 1, cloudFrame 0, cloudFrame 1] =
      .error (.duplicateFrame 1 "cloud") :=
  ⟨by decide,
    validateGroup_duplicate "cloud" [cloudFrame 2, cloudFrame 1, cloudFrame 0, cloudFrame 1] 3 1
      (by decide) (by decide)⟩

/-! ## Theorems: leftover files -/

/-- One frame object whose pattern rejects the stem of an extra file: the file
stays in the pool, at its place, and the frames are the same. -/
theorem processFrame_insert {F N : Type} {env : Env F N} {group : GroupDefaults F}
    {frameJson : List (String × Json N)} (extra : FileData)
    (hun : ∀ frame m, readFrameProperties env frameJson = .ok (frame, m) →
      m extra.Stem = false)
    {a b p1 : List FileData} {tf t1 : List (TextureFrameSpecification F)}
    (h : processFrame env group (.object frameJson) (a ++ b) tf = .ok (p1, t1)) :
    ∃ a1 b1, p1 = a1 ++ b1 ∧
      processFrame env group (.object frameJson) (a ++ extra :: b) tf =
        .ok (a1 ++ extra :: b1, t1) := by
  obtain ⟨frameJson1, frame, m, specs, hobj, hread, hb, hne, hrem, htf⟩ := processFrame_ok h
  cases hobj
  have hm := hun frame m hread
  refine ⟨a.filter (fun f => !m f.Stem), b.filter (fun f => !m f.Stem), ?_, ?_⟩
  · rw [hrem, List.filter_append]
  · rw [processFrame_object]
    have hfilter : (a ++ extra :: b).filter (fun f => m f.Stem) =
        (a ++ b).filter (fun f => m f.Stem) := by
      simp [List.filter_append, List.filter_cons, hm]
    have hfilter2 : (a ++ extra :: b).filter (fun f => !m f.Stem) =
        a.filter (fun f => !m f.Stem) ++ extra :: b.filter (fun f => !m f.Stem) := by
      simp [List.filter_append, List.filter_cons, hm]
    have hlen : ¬ specs.length = 0 := fun h0 => hne (List.length_eq_zero.mp h0)
    simp only [hread, hfilter, hb, hfilter2, hlen, if_false, htf]

/-- The frame loop with an extra file that no pattern of the group matches. -/
theorem processFrames_insert {F N : Type} {env : Env F N} {group : GroupDefaults F}
    (extra : FileData) :
    ∀ (frames : List (Json N)),
      (∀ frameJson, Json.object frameJson ∈ frames →
        ∀ frame m, readFrameProperties env frameJson = .ok (frame, m) → m extra.Stem = false) →
      ∀ (a b p1 : List FileData) (tf t1 : List (TextureFrameSpecification F)),
        processFrames env group frames (a ++ b) tf = .ok (p1, t1) →
        ∃ a1 b1, p1 = a1 ++ b1 ∧
          processFrames env group frames (a ++ extra :: b) tf = .ok (a1 ++ extra :: b1, t1) := by
  intro frames
  induction frames with
  | nil =>
    intro _ a b p1 tf t1 h
    simp only [processFrames, Except.ok.injEq, Prod.mk.injEq] at h
    obtain ⟨h1, h2⟩ := h
    subst h1 h2
    exact ⟨a, b, rfl, rfl⟩
  | cons fv rest ih =>
    intro hun a b p1 tf t1 h
    simp only [processFrames] at h
    cases h1 : processFrame env group fv (a ++ b) tf with
    | error e => simp [h1] at h
    | ok r =>
      obtain ⟨q, t⟩ := r
      simp only [h1] at h
      obtain ⟨frameJson, -, -, -, hobj, -⟩ := processFrame_ok h1
      subst hobj
      obtain ⟨a1, b1, hq, hnew⟩ :=
        processFrame_insert extra (hun frameJson (List.mem_cons_self _ _)) h1
      subst hq
      obtain ⟨a2, b2, hp, hnew2⟩ :=
        ih (fun fj hfj => hun fj (List.mem_cons_of_mem _ hfj)) a1 b1 p1 t t1 h
      exact ⟨a2, b2, hp, by simp only [processFrames, hnew, hnew2]⟩

/-- One group object with an extra file that no pattern of the group matches. -/
theorem processGroup_insert {F N : Type} {env : Env F N} (extra : FileData)
    {groupJson : List (String × Json N)}
    (hun : ∀ frames, GetMandatoryJsonArray groupJson "frames" = .ok frames →
      ∀ frameJson, Json.object frameJson ∈ frames →
        ∀ frame m, readFrameProperties env frameJson = .ok (frame, m) → m extra.Stem = false)
    {a b p1 : List FileData} {tg : TextureGroup F}
    (h : processGroup env (.object groupJson) (a ++ b) = .ok (p1, tg)) :
    ∃ a1 b1, p1 = a1 ++ b1 ∧
      processGroup env (.object groupJson) (a ++ extra :: b) = .ok (a1 ++ extra :: b1, tg) := by
  obtain ⟨groupJson1, group, frames, tf, hobj, hread, harr, hpf, hv⟩ := processGroup_ok h
  cases hobj
  obtain ⟨a1, b1, hp, hnew⟩ := processFrames_insert extra frames (hun frames harr) a b p1 [] tf hpf
  exact ⟨a1, b1, hp, by simp only [processGroup, hread, harr, hnew, hv]⟩

/-- The group loop with an extra file that no pattern of the manifest matches. -/
theorem processGroups_insert {F N : Type} {env : Env F N} (extra : FileData) :
    ∀ (groups : List (Json N)),
      (∀ groupJson, Json.object groupJson ∈ groups →
        ∀ frames, GetMandatoryJsonArray groupJson "frames" = .ok frames →
          ∀ frameJson, Json.object frameJson ∈ frames →
            ∀ frame m, readFrameProperties env frameJson = .ok (frame, m) →
              m extra.Stem = false) →
      ∀ (a b p1 : List FileData) (tgs tgs1 : List (TextureGroup F)),
        processGroups env groups (a ++ b) tgs = .ok (p1, tgs1) →
        ∃ a1 b1, p1 = a1 ++ b1 ∧
          processGroups env groups (a ++ extra :: b) tgs = .ok (a1 ++ extra :: b1, tgs1) := by
  intro groups
  induction groups with
  | nil =>
    intro _ a b p1 tgs tgs1 h
    simp only [processGroups, Except.ok.injEq, Prod.mk.injEq] at h
    obtain ⟨h1, h2⟩ := h
    subst h1 h2
    exact ⟨a, b, rfl, rfl⟩
  | cons gv rest ih =>
    intro hun a b p1 tgs tgs1 h
    simp only [processGroups] at h
    cases h1 : processGroup env gv (a ++ b) with
    | error e => simp [h1] at h
    | ok r =>
      obtain ⟨q, tg⟩ := r
      simp only [h1] at h
      obtain ⟨groupJson, -, -, -, hobj, -⟩ := processGroup_ok h1
      subst hobj
      obtain ⟨a1, b1, hq, hnew⟩ :=
        processGroup_insert extra (hun groupJson (List.mem_cons_self _ _)) h1
      subst hq
      obtain ⟨a2, b2, hp, hnew2⟩ :=
        ih (fun gj hgj => hun gj (List.mem_cons_of_mem _ hgj)) a1 b1 p1 (tgs ++ [tg]) tgs1 h
      exact ⟨a2, b2, hp, by simp only [processGroups, hnew, hnew2]⟩

/-- C10 (leftover detection): if `Load` succeeds on a manifest and a pool, and
an extra file whose stem no frame pattern of the manifest matches is inserted
into the pool at any position, `Load` fails with the leftover-files error,
which reports the count 1 and the stem of that file. -/
theorem Load_leftover_detection {F N : Type} (env : Env F N) (jsonFilePath : String)
    (groups : List (Json N)) (before after : List FileData) (db : TextureDatabase F)
    (extra : FileData)
    (hload : LoadFromPool env jsonFilePath (.array groups) (before ++ after) = .ok db)
    (hextra : matchedByNoPattern env groups extra.Stem) :
    LoadFromPool env jsonFilePath (.array groups) (before ++ extra :: after) =
      .error (.leftoverFiles 1 extra.Stem) := by
  obtain ⟨groups1, hroot, hgs⟩ := LoadFromPool_ok hload
  cases hroot
  have hun : ∀ groupJson, Json.object groupJson ∈ groups →
      ∀ frames, GetMandatoryJsonArray groupJson "frames" = .ok frames →
        ∀ frameJson, Json.object frameJson ∈ frames →
          ∀ (frame : FrameProperties F) m, readFrameProperties env frameJson = .ok (frame, m) →
            m extra.Stem = false := by
    intro groupJson hg frames hf frameJson hfj frame m hread
    obtain ⟨-, -, -, -, hname, hrx⟩ := readFrameProperties_ok hread
    exact hextra groupJson hg frames hf frameJson hfj _ hname m hrx
  obtain ⟨a1, b1, hp, hnew⟩ := processGroups_insert extra groups hun before after [] [] _ hgs
  have ha : a1 = [] := (List.append_eq_nil.mp hp.symm).1
  have hb : b1 = [] := (List.append_eq_nil.mp hp.symm).2
  subst ha hb
  simp only [LoadFromPool, hnew, List.nil_append, List.length_singleton]

/-- C10 at the end-to-end example: the file `readme.txt` put between the two
images. -/
theorem Load_leftover_detection_witness :
    LoadFromPool (concreteEnv waterDirectory waterManifest waterSizes)
        "Data/Textures/textures.json" waterManifest
        [FileData.mk "Data/Textures/water_0.png" "water_0",
         FileData.mk "Data/Textures/readme.txt" "readme",
         FileData.mk "Data/Textures/water_1.png" "water_1"] =
      .error (.leftoverFiles 1 "readme") :=
  Load_leftover_detection (concreteEnv waterDirectory waterManifest waterSizes)
    "Data/Textures/textures.json"
    [.object [("groupName", .string "water"), ("worldScaling", .number (3 / 2)),
      ("frames", .array [.object [("filename", .string "water_\\d+")]])]]
    [FileData.mk "Data/Textures/water_0.png" "water_0"]
    [FileData.mk "Data/Textures/water_1.png" "water_1"] _
    (FileData.mk "Data/Textures/readme.txt" "readme")
    LoadFromPool_water_images
    (by
      intro groupJson hg frames hf frameJson hfj frameFilename hname m hm
      rw [List.mem_singleton, Json.object.injEq] at hg
      subst hg
      have hf1 : GetMandatoryJsonArray
          [("groupName", Json.string "water"), ("worldScaling", Json.number (3 / 2 : ℚ)),
            ("frames", .array [.object [("filename", .string "water_\\d+")]])] "frames" =
          .ok [.object [("filename", .string "water_\\d+")]] := rfl
      rw [hf1, Except.ok.injEq] at hf
      subst hf
      rw [List.mem_singleton, Json.object.injEq] at hfj
      subst hfj
      have hn1 : GetMandatoryJsonString [("filename", (Json.string "water_\\d+" : Json ℚ))]
          "filename" = .ok "water_\\d+" := rfl
      rw [hn1, Except.ok.injEq] at hname
      subst hname
      have hm1 : (concreteEnv waterDirectory waterManifest waterSizes).regex
          ("^" ++ "water_\\d+" ++ "$") = fragmentRegex "^water_\\d+$" := rfl
      rw [hm1] at hm
      have hm2 : fragmentRegex "^water_\\d+$" = some fun s => matchRegexItems
          [(.literal 'w', .one), (.literal 'a', .one), (.literal 't', .one),
            (.literal 'e', .one), (.literal 'r', .one), (.literal '_', .one),
            (.digit, .plus)] s.data := rfl
      rw [hm2, Option.some.injEq] at hm
      subst hm
      decide)

/-! ## Theorems: the manifest in the candidate pool -/

/-- Every file that was built has a frame among the frames built. -/
theorem buildAll_built {F N : Type} {env : Env F N} {group : GroupDefaults F}
    {frame : FrameProperties F} {files : List FileData}
    {specs : List (TextureFrameSpecification F)}
    (h : buildAll env group frame files = .ok specs) :
    ∀ f ∈ files, ∃ spec ∈ specs, buildFrame env group frame f = .ok spec := by
  have h2 := buildAll_ok h
  clear h
  induction h2 with
  | nil => intro f hf; cases hf
  | cons hb _ ih =>
    intro f hf
    rcases List.mem_cons.mp hf with hf | hf
    · subst hf
      exact ⟨_, List.mem_cons_self _ _, hb⟩
    · obtain ⟨spec, hs, hbf⟩ := ih f hf
      exact ⟨spec, List.mem_cons_of_mem _ hs, hbf⟩

/-- After a successful load every file of the pool was built into a frame: its
stem carries a frame index. -/
theorem LoadFromPool_built {F N : Type} {env : Env F N} {jsonFilePath : String} {root : Json N}
    {pool : List FileData} {db : TextureDatabase F}
    (h : LoadFromPool env jsonFilePath root pool = .ok db) :
    ∀ f ∈ pool, ∃ group frame spec, buildFrame env group frame f = .ok spec := by
  obtain ⟨groups, -, hgs⟩ := LoadFromPool_ok h
  intro f hf
  have hframe : ∀ (group : GroupDefaults F) (fv : Json N) (p p1 : List FileData)
      (t t1 : List (TextureFrameSpecification F)),
      (f ∈ p ∨ ∃ group frame spec, buildFrame env group frame f = .ok spec) →
      processFrame env group fv p t = .ok (p1, t1) →
      (f ∈ p1 ∨ ∃ group frame spec, buildFrame env group frame f = .ok spec) := by
    intro group fv p p1 t t1 hP hstep
    rcases hP with hP | hP
    · obtain ⟨frameJson, frame, m, specs, -, -, hb, -, hrem, -⟩ := processFrame_ok hstep
      cases hm : m f.Stem
      · left
        rw [hrem, List.mem_filter]
        exact ⟨hP, by simp [hm]⟩
      · right
        obtain ⟨spec, -, hbf⟩ := buildAll_built hb f (List.mem_filter.mpr ⟨hP, hm⟩)
        exact ⟨group, frame, spec, hbf⟩
    · exact Or.inr hP
  have hgroup : ∀ (gv : Json N) (p : List FileData) (tgs : List (TextureGroup F))
      (p1 : List FileData) (tg : TextureGroup F),
      (f ∈ p ∨ ∃ group frame spec, buildFrame env group frame f = .ok spec) →
      processGroup env gv p = .ok (p1, tg) →
      (f ∈ p1 ∨ ∃ group frame spec, buildFrame env group frame f = .ok spec) := by
    intro gv p tgs p1 tg hP hstep
    obtain ⟨groupJson, group, frames, tf, -, -, -, hpf, -⟩ := processGroup_ok hstep
    exact processFrames_induction
      (fun q _ => f ∈ q ∨ ∃ group frame spec, buildFrame env group frame f = .ok spec)
      (fun fv q t q1 t1 hq hs => hframe group fv q q1 t t1 hq hs) frames p [] p1 tf hP hpf
  have hend := processGroups_induction
    (fun q _ => f ∈ q ∨ ∃ group frame spec, buildFrame env group frame f = .ok spec)
    (fun gv q tgs q1 tg hq hs => hgroup gv q tgs q1 tg hq hs) groups pool [] [] db.mGroups
    (Or.inl hf) hgs
  rcases hend with hend | hend
  · cases hend
  · exact hend

/-- Whenever the directory lists the manifest `textures.json` as a regular file,
`Load` fails, whatever the manifest, the other files and the libraries do: the
manifest enters the candidate pool with the stem "textures", which carries no
frame index, so no frame pattern can consume it. -/
theorem Load_fails_with_manifest_listed {F N : Type} (env : Env F N) (texturesRoot : String)
    (entries : List DirEntry) (entry : DirEntry)
    (hdir : env.directory_iterator texturesRoot = some entries)
    (hentry : entry ∈ entries) (hregular : entry.is_regular_file = true)
    (hname : filename entry.path = "textures.json") :
    ∀ db : TextureDatabase F, Load env texturesRoot ≠ .ok db := by
  intro db hload
  unfold Load at hload
  simp only [hdir] at hload
  cases hparse : env.ParseJSONFile (pathAppend texturesRoot "textures.json") with
  | none => simp [hparse] at hload
  | some root =>
    simp only [hparse] at hload
    have hmem : FileData.mk entry.path "textures" ∈ enumerateTextureFiles entries := by
      rw [enumerateTextureFiles_eq, List.mem_map]
      refine ⟨entry, List.mem_filter.mpr ⟨hentry, hregular⟩, ?_⟩
      rw [hname]
      rfl
    obtain ⟨group, frame, spec, hb⟩ := LoadFromPool_built hload _ hmem
    have hnone : TextureFilenameFrameIndexRegex "textures".data = none := by decide
    exact buildFrame_index hb hnone

/-! ## Theorems: `StrToTextureGroupType` -/

/-- C19, as the code has it: `StrToTextureGroupType` lower-cases its argument
before it compares. It returns Cloud, Land, PinnedPoint, RcBomb, TimerBomb,
Water for the strings whose lower-cased form is "cloud", "land",
"pinned_point", "rc_bomb", "timer_bomb", "water" respectively (the six tokens
themselves among them), and fails with the "Unrecognized TextureGroupType"
error, carrying the string as given, for every string whose lower-cased form is
none of the six. -/
theorem StrToTextureGroupType_spec (str : String) :
    (ToLower str = "cloud" → StrToTextureGroupType str = .ok .Cloud) ∧
    (ToLower str = "land" → StrToTextureGroupType str = .ok .Land) ∧
    (ToLower str = "pinned_point" → StrToTextureGroupType str = .ok .PinnedPoint) ∧
    (ToLower str = "rc_bomb" → StrToTextureGroupType str = .ok .RcBomb) ∧
    (ToLower str = "timer_bomb" → StrToTextureGroupType str = .ok .TimerBomb) ∧
    (ToLower str = "water" → StrToTextureGroupType str = .ok .Water) ∧
    (ToLower str ∉ ["cloud", "land", "pinned_point", "rc_bomb", "timer_bomb", "water"] →
      StrToTextureGroupType str = .error (.unrecognizedTextureGroupType str)) := by
  refine ⟨?_, ?_, ?_, ?_, ?_, ?_, ?_⟩
  · intro h; simp [StrToTextureGroupType, h]
  · intro h; simp [StrToTextureGroupType, h]
  · intro h; simp [StrToTextureGroupType, h]
  · intro h; simp [StrToTextureGroupType, h]
  · intro h; simp [StrToTextureGroupType, h]
  · intro h; simp [StrToTextureGroupType, h]
  · intro h
    simp only [List.mem_cons, List.mem_singleton, List.not_mem_nil, or_false, not_or] at h
    obtain ⟨h1, h2, h3, h4, h5, h6⟩ := h
    simp [StrToTextureGroupType, h1, h2, h3, h4, h5, h6]

/-- C19 at the six tokens, at "Water" and at "fogbank". -/
theorem StrToTextureGroupType_spec_witness :
    (StrToTextureGroupType "cloud" = .ok .Cloud ∧ StrToTextureGroupType "land" = .ok .Land ∧
      StrToTextureGroupType "pinned_point" = .ok .PinnedPoint ∧
      StrToTextureGroupType "rc_bomb" = .ok .RcBomb ∧
      StrToTextureGroupType "timer_bomb" = .ok .TimerBomb ∧
      StrToTextureGroupType "water" = .ok .Water) ∧
    StrToTextureGroupType "Water" = .ok .Water ∧
    StrToTextureGroupType "fogbank" = .error (.unrecognizedTextureGroupType "fogbank") :=
  ⟨⟨(StrToTextureGroupType_spec "cloud").1 (by decide),
      (StrToTextureGroupType_spec "land").2.1 (by decide),
      (StrToTextureGroupType_spec "pinned_point").2.2.1 (by decide),
      (StrToTextureGroupType_spec "rc_bomb").2.2.2.1 (by decide),
      (StrToTextureGroupType_spec "timer_bomb").2.2.2.2.1 (by decide),
      (StrToTextureGroupType_spec "water").2.2.2.2.2.1 (by decide)⟩,
    (StrToTextureGroupType_spec "Water").2.2.2.2.2.1 (by decide),
    (StrToTextureGroupType_spec "fogbank").2.2.2.2.2.2 (by decide)⟩

/-- C19 as stated fails: "Water" and "CLOUD" are none of the six lowercase
tokens, and `StrToTextureGroupType` accepts them. -/
theorem StrToTextureGroupType_counterexample :
    "Water" ∉ ["cloud", "land", "pinned_point", "rc_bomb", "timer_bomb", "water"] ∧
    StrToTextureGroupType "Water" = .ok .Water ∧
    "CLOUD" ∉ ["cloud", "land", "pinned_point", "rc_bomb", "timer_bomb", "water"] ∧
    StrToTextureGroupType "CLOUD" = .ok .Cloud := by
  decide

/-- C11 (unknown category): when the first group object of the manifest has a
`groupName` that `StrToTextureGroupType` does not recognize, `Load` fails with
the "Unrecognized TextureGroupType" error for every candidate pool, whatever
the other members of the group, the later groups and the regular expression
engine are: no frame pattern is read or matched before. -/
theorem Load_unknown_category {F N : Type} (env : Env F N) (jsonFilePath : String)
    (groupJson : List (String × Json N)) (laterGroups : List (Json N)) (groupName : String)
    (pool : List FileData)
    (hname : GetMandatoryJsonString groupJson "groupName" = .ok groupName)
    (hunknown : ∀ groupType, StrToTextureGroupType groupName ≠ .ok groupType) :
    LoadFromPool env jsonFilePath (.array (.object groupJson :: laterGroups)) pool =
      .error (.unrecognizedTextureGroupType groupName) := by
  have herr : StrToTextureGroupType groupName =
      .error (.unrecognizedTextureGroupType groupName) := by
    unfold StrToTextureGroupType at hunknown ⊢
    simp only []
    split_ifs with h1 h2 h3 h4 h5 h6
    · exact absurd (by simp [h1]) (hunknown .Cloud)
    · exact absurd (by simp [h1, h2]) (hunknown .Land)
    · exact absurd (by simp [h1, h2, h3]) (hunknown .PinnedPoint)
    · exact absurd (by simp [h1, h2, h3, h4]) (hunknown .RcBomb)
    · exact absurd (by simp [h1, h2, h3, h4, h5]) (hunknown .TimerBomb)
    · exact absurd (by simp [h1, h2, h3, h4, h5, h6]) (hunknown .Water)
    · rfl
  simp only [LoadFromPool, processGroups, processGroup, readGroupDefaults, hname, herr]

/-- C11 at the group name "fogbank", with a frame pattern that would match the
file of the pool. -/
theorem Load_unknown_category_witness :
    LoadFromPool (concreteEnv [] .null squareSizes) "t/textures.json"
        (.array [.object [("groupName", .string "fogbank"), ("worldScaling", .number 1),
          ("frames", .array [.object [("filename", .string "fog_\\d+")]])]])
        [pngFile "fog_0"] =
      .error (.unrecognizedTextureGroupType "fogbank") :=
  Load_unknown_category (concreteEnv [] .null squareSizes) "t/textures.json"
    [("groupName", .string "fogbank"), ("worldScaling", .number 1),
      ("frames", .array [.object [("filename", .string "fog_\\d+")]])]
    [] "fogbank" [pngFile "fog_0"] rfl (by intro groupType; cases groupType <;> decide)

/-! ## Theorems: the validation of a group -/

/-- The indices of the sorted frames are in ascending order. -/
theorem sortFrames_indices_sorted {F : Type} (tf : List (TextureFrameSpecification F)) :
    ((sortFrames tf).map frameIndexOf).Sorted (· ≤ ·) := by
  rw [sortFrames_indices]
  exact List.sorted_insertionSort _ _

/-- The indices of the sorted frames are the indices of the frames, each as
often. -/
theorem sortFrames_indices_perm {F : Type} (tf : List (TextureFrameSpecification F)) :
    ((sortFrames tf).map frameIndexOf).Perm (tf.map frameIndexOf) :=
  (sortFrames_perm tf).map _

/-- The errors of the validation come from the index check. -/
theorem validateGroup_error {F : Type} {groupName : String}
    {tf : List (TextureFrameSpecification F)} {e : LoadError}
    (h : validateGroup groupName tf = .error e) :
    checkFrameIndices groupName 0 (sortFrames tf) = .error e := by
  unfold validateGroup at h
  cases hc : checkFrameIndices groupName 0 (sortFrames tf) with
  | error e1 =>
    simp only [hc, Except.error.injEq] at h
    rw [h]
  | ok u => simp [hc] at h

/-- C17: the validation of a group succeeds if and only if the frame indices of
the frames built for the group are a permutation of 0..N-1, N being the number
of frames; on success the stored group is the input frames, rearranged in
ascending order of frame index. -/
theorem validateGroup_ok_iff {F : Type} (groupName : String)
    (textureFrames : List (TextureFrameSpecification F)) :
    ((∃ textureGroup, validateGroup groupName textureFrames = .ok textureGroup) ↔
      (textureFrames.map fun spec => spec.Metadata.FrameId.FrameIndex).Perm
        (List.range textureFrames.length)) ∧
    (∀ textureGroup, validateGroup groupName textureFrames = .ok textureGroup →
      textureGroup.mFrameSpecifications.Perm textureFrames ∧
      textureGroup.mFrameSpecifications.Pairwise
        (fun a b => a.Metadata.FrameId.FrameIndex < b.Metadata.FrameId.FrameIndex)) := by
  have hlen : (sortFrames textureFrames).length = textureFrames.length :=
    (sortFrames_perm textureFrames).length_eq
  constructor
  · constructor
    · rintro ⟨tg, h⟩
      have hr := checkFrameIndices_ok (validateGroup_ok h).1
      rw [hlen, ← List.range_eq_range'] at hr
      have hp := sortFrames_indices_perm textureFrames
      rw [hr] at hp
      exact hp.symm
    · intro hperm
      have hs : (sortFrames textureFrames).map frameIndexOf = List.range textureFrames.length :=
        sortFrames_indices_eq hperm (List.sorted_le_range _)
      have hc : checkFrameIndices groupName 0 (sortFrames textureFrames) = .ok () := by
        apply checkFrameIndices_of_range
        rw [hs, hlen, List.range_eq_range']
      exact ⟨TextureGroup.mk (sortFrames textureFrames), by simp only [validateGroup, hc]⟩
  · intro tg h
    obtain ⟨hc, hg⟩ := validateGroup_ok h
    subst hg
    refine ⟨sortFrames_perm textureFrames, ?_⟩
    have hr := checkFrameIndices_ok hc
    have hlt : ((sortFrames textureFrames).map frameIndexOf).Pairwise (· < ·) := by
      rw [hr]
      exact List.pairwise_lt_range' _ _
    exact (List.pairwise_map.mp hlt)

/-- C17 at the frames 1, 0. -/
theorem validateGroup_ok_iff_witness :
    (∃ textureGroup, validateGroup "cloud" [cloudFrame 1, cloudFrame 0] = .ok textureGroup) ∧
    validateGroup "cloud" [cloudFrame 1, cloudFrame 0] =
      .ok (TextureGroup.mk [cloudFrame 0, cloudFrame 1]) :=
  ⟨(validateGroup_ok_iff "cloud" [cloudFrame 1, cloudFrame 0]).1.mpr (by decide), by rfl⟩

/-- A missing-frame error of the index check over ascending indices names an
index that no frame from the current position on has. -/
theorem checkFrameIndices_missing_sound {F : Type} {groupName : String} :
    ∀ (l : List (TextureFrameSpecification F)) (e m : Nat) (g : String),
      (l.map frameIndexOf).Sorted (· ≤ ·) →
      checkFrameIndices groupName e l = .error (.missingFrame m g) →
      e ≤ m ∧ m ∉ l.map frameIndexOf := by
  intro l
  induction l with
  | nil => intro e m g _ h; simp [checkFrameIndices] at h
  | cons spec rest ih =>
    intro e m g hs h
    rw [List.map_cons, List.sorted_cons] at hs
    simp only [checkFrameIndices] at h
    by_cases h1 : frameIndexOf spec < e
    · simp [h1] at h
    · by_cases h2 : frameIndexOf spec > e
      · simp only [h1, h2, if_false, if_true, Except.error.injEq,
          LoadError.missingFrame.injEq] at h
        obtain ⟨hm, -⟩ := h
        subst hm
        refine ⟨le_refl _, ?_⟩
        intro hmem
        rcases List.mem_cons.mp hmem with hmem | hmem
        · omega
        · have := hs.1 _ hmem
          omega
      · simp only [h1, h2, if_false] at h
        obtain ⟨hle, hnot⟩ := ih (e + 1) m g hs.2 h
        refine ⟨by omega, ?_⟩
        intro hmem
        rcases List.mem_cons.mp hmem with hmem | hmem
        · omega
        · exact hnot hmem

/-- A duplicate-frame error of the index check over ascending indices, none
below the position before the current one, names the index of the frame before
the current position and of the frame at it, or an index that two frames from
the current position on have. -/
theorem checkFrameIndices_duplicate_sound {F : Type} {groupName : String} :
    ∀ (l : List (TextureFrameSpecification F)) (e d : Nat) (g : String),
      (l.map frameIndexOf).Sorted (· ≤ ·) →
      (∀ x ∈ l.map frameIndexOf, e ≤ x + 1) →
      checkFrameIndices groupName e l = .error (.duplicateFrame d g) →
      (d + 1 = e ∧ d ∈ l.map frameIndexOf) ∨ 2 ≤ (l.map frameIndexOf).count d := by
  intro l
  induction l with
  | nil => intro e d g _ _ h; simp [checkFrameIndices] at h
  | cons spec rest ih =>
    intro e d g hs hlow h
    rw [List.map_cons, List.sorted_cons] at hs
    simp only [checkFrameIndices] at h
    by_cases h1 : frameIndexOf spec < e
    · simp only [h1, if_true, Except.error.injEq, LoadError.duplicateFrame.injEq] at h
      obtain ⟨hd, -⟩ := h
      subst hd
      have := hlow (frameIndexOf spec) (by simp)
      left
      exact ⟨by omega, by simp⟩
    · by_cases h2 : frameIndexOf spec > e
      · simp [h1, h2] at h
      · simp only [h1, h2, if_false] at h
        have he : frameIndexOf spec = e := by omega
        have hlow2 : ∀ x ∈ rest.map frameIndexOf, e + 1 ≤ x + 1 := by
          intro x hx
          have := hs.1 x hx
          omega
        rcases ih (e + 1) d g hs.2 hlow2 h with ⟨hd, hmem⟩ | hcount
        · right
          have hde : d = e := by omega
          have h1c : 1 ≤ (rest.map frameIndexOf).count d := List.count_pos_iff.mpr hmem
          rw [List.map_cons, List.count_cons, he, hde]
          simp only [beq_self_eq_true, if_true]
          rw [← hde]
          omega
        · right
          rw [List.map_cons, List.count_cons]
          omega

/-- C18: the errors of the validation of a group are sound for every list of
frames: when it fails with the duplicate-frame error naming the index d, at
least two frames of the group have the index d; when it fails with the
missing-frame error naming the index m, no frame of the group has the index
m. -/
theorem validateGroup_errors_sound {F : Type} (groupName : String)
    (textureFrames : List (TextureFrameSpecification F)) :
    (∀ (d : Nat) (g : String),
      validateGroup groupName textureFrames = .error (.duplicateFrame d g) →
      2 ≤ (textureFrames.filter fun spec => spec.Metadata.FrameId.FrameIndex = d).length) ∧
    (∀ (m : Nat) (g : String),
      validateGroup groupName textureFrames = .error (.missingFrame m g) →
      ∀ spec ∈ textureFrames, spec.Metadata.FrameId.FrameIndex ≠ m) := by
  constructor
  · intro d g h
    have hc := validateGroup_error h
    have hcount : 2 ≤ ((sortFrames textureFrames).map frameIndexOf).count d := by
      rcases checkFrameIndices_duplicate_sound _ 0 d g (sortFrames_indices_sorted _)
        (fun x _ => Nat.zero_le _) hc with ⟨h0, -⟩ | h2
      · omega
      · exact h2
    rw [(sortFrames_indices_perm textureFrames).count_eq, List.count_eq_countP,
      List.countP_map, List.countP_eq_length_filter] at hcount
    have hfilter : (textureFrames.filter fun spec => spec.Metadata.FrameId.FrameIndex = d) =
        textureFrames.filter ((fun x => x == d) ∘ frameIndexOf) := by
      apply List.filter_congr
      intro x _
      rfl
    rw [hfilter]
    exact hcount
  · intro m g h spec hspec hidx
    have hc := validateGroup_error h
    obtain ⟨-, hnot⟩ := checkFrameIndices_missing_sound _ 0 m g (sortFrames_indices_sorted _) hc
    apply hnot
    rw [(sortFrames_indices_perm textureFrames).mem_iff, List.mem_map]
    exact ⟨spec, hspec, hidx⟩

/-- C18 at the frames 2, 1, 0, 1 (index 1 twice) and 3, 0, 1 (index 2 absent). -/
theorem validateGroup_errors_sound_witness :
    2 ≤ ([cloudFrame 2, cloudFrame 1, cloudFrame 0, cloudFrame 1].filter
      fun spec => spec.Metadata.FrameId.FrameIndex = 1).length ∧
    (∀ spec ∈ [cloudFrame 3, cloudFrame 0, cloudFrame 1],
      spec.Metadata.FrameId.FrameIndex ≠ 2) :=
  ⟨(validateGroup_errors_sound "cloud"
      [cloudFrame 2, cloudFrame 1, cloudFrame 0, cloudFrame 1]).1 1 "cloud" (by rfl),
    (validateGroup_errors_sound "cloud" [cloudFrame 3, cloudFrame 0, cloudFrame 1]).2 2 "cloud"
      (by rfl)⟩

/-! ## Theorems: splitting a run of the loops -/

/-- The frame loop over two lists of frame objects, one after the other. -/
theorem processFrames_append {F N : Type} (env : Env F N) (group : GroupDefaults F) :
    ∀ (A B : List (Json N)) (pool : List FileData) (tf : List (TextureFrameSpecification F)),
      processFrames env group (A ++ B) pool tf =
        match processFrames env group A pool tf with
        | .error e => .error e
        | .ok (p, t) => processFrames env group B p t := by
  intro A
  induction A with
  | nil => intro B pool tf; rfl
  | cons fv rest ih =>
    intro B pool tf
    simp only [List.cons_append, processFrames]
    cases h1 : processFrame env group fv pool tf with
    | error e => rfl
    | ok r =>
      obtain ⟨p1, t1⟩ := r
      simp only []
      exact ih B p1 t1

/-- The group loop over two lists of group objects, one after the other. -/
theorem processGroups_append {F N : Type} (env : Env F N) :
    ∀ (A B : List (Json N)) (pool : List FileData) (tgs : List (TextureGroup F)),
      processGroups env (A ++ B) pool tgs =
        match processGroups env A pool tgs with
        | .error e => .error e
        | .ok (p, t) => processGroups env B p t := by
  intro A
  induction A with
  | nil => intro B pool tgs; rfl
  | cons gv rest ih =>
    intro B pool tgs
    simp only [List.cons_append, processGroups]
    cases h1 : processGroup env gv pool with
    | error e => rfl
    | ok r =>
      obtain ⟨p1, tg⟩ := r
      simp only []
      exact ih B p1 (tgs ++ [tg])

/-- The group loop appends one group per group object. -/
theorem processGroups_groups {F N : Type} {env : Env F N} :
    ∀ {groups : List (Json N)} {pool remaining : List FileData}
      {tgs tgs1 : List (TextureGroup F)},
      processGroups env groups pool tgs = .ok (remaining, tgs1) →
      ∃ added, tgs1 = tgs ++ added ∧ added.length = groups.length := by
  intro groups
  induction groups with
  | nil =>
    intro pool remaining tgs tgs1 h
    simp only [processGroups, Except.ok.injEq, Prod.mk.injEq] at h
    exact ⟨[], by simp [h.2], rfl⟩
  | cons gv rest ih =>
    intro pool remaining tgs tgs1 h
    simp only [processGroups] at h
    cases h1 : processGroup env gv pool with
    | error e => simp [h1] at h
    | ok r =>
      obtain ⟨p1, tg⟩ := r
      simp only [h1] at h
      obtain ⟨added, hadd, hlen⟩ := ih h
      exact ⟨tg :: added, by simp [hadd], by simp [hlen]⟩

/-- The frame loop appends frames to `textureFrames`. -/
theorem processFrames_frames {F N : Type} {env : Env F N} {group : GroupDefaults F}
    {frames : List (Json N)} {pool remaining : List FileData}
    {tf tf1 : List (TextureFrameSpecification F)}
    (h : processFrames env group frames pool tf = .ok (remaining, tf1)) :
    ∃ added, tf1 = tf ++ added :=
  processFrames_induction (fun _ t => ∃ added, t = tf ++ added)
    (fun _ _ _ _ _ hP hstep => by
      obtain ⟨added, hadd⟩ := hP
      obtain ⟨-, -, -, specs, -, -, -, -, -, ht⟩ := processFrame_ok hstep
      exact ⟨added ++ specs, by rw [ht, hadd, List.append_assoc]⟩)
    frames pool tf remaining tf1 ⟨[], by simp⟩ h

/-- The run of a successful load, split at a group object of the manifest: the
groups before it, the group itself, and the groups after it; the group it
stores is the one at its position in the database. -/
theorem LoadFromPool_split {F N : Type} {env : Env F N} {jsonFilePath : String}
    {G1 G2 : List (Json N)} {groupValue : Json N} {pool : List FileData}
    {db : TextureDatabase F}
    (h : LoadFromPool env jsonFilePath (.array (G1 ++ groupValue :: G2)) pool = .ok db) :
    ∃ p1 tgs1 p2 tg, processGroups env G1 pool [] = .ok (p1, tgs1) ∧
      processGroup env groupValue p1 = .ok (p2, tg) ∧
      processGroups env G2 p2 (tgs1 ++ [tg]) = .ok ([], db.mGroups) ∧
      tgs1.length = G1.length ∧ db.mGroups[G1.length]? = some tg := by
  obtain ⟨groups, hroot, hgs⟩ := LoadFromPool_ok h
  cases hroot
  rw [processGroups_append] at hgs
  cases h1 : processGroups env G1 pool [] with
  | error e => simp [h1] at hgs
  | ok r =>
    obtain ⟨p1, tgs1⟩ := r
    simp only [h1, processGroups] at hgs
    cases h2 : processGroup env groupValue p1 with
    | error e => simp [h2] at hgs
    | ok r2 =>
      obtain ⟨p2, tg⟩ := r2
      simp only [h2] at hgs
      obtain ⟨added1, hadd1, hlen1⟩ := processGroups_groups h1
      obtain ⟨added2, hadd2, -⟩ := processGroups_groups hgs
      simp only [List.nil_append] at hadd1
      subst hadd1
      refine ⟨p1, tgs1, p2, tg, rfl, h2, hgs, hlen1, ?_⟩
      rw [hadd2, ← hlen1, List.append_assoc, List.getElem?_append_right (le_refl _)]
      simp

/-- The run of a successful group object, split at a frame object: the frames
before it, the frame itself, and the frames after it. -/
theorem processGroup_split {F N : Type} {env : Env F N} {groupJson : List (String × Json N)}
    {Fr1 Fr2 : List (Json N)} {frameValue : Json N} {pool remaining : List FileData}
    {tg : TextureGroup F}
    (h : processGroup env (.object groupJson) pool = .ok (remaining, tg))
    (hframes : GetMandatoryJsonArray groupJson "frames" = .ok (Fr1 ++ frameValue :: Fr2)) :
    ∃ group q1 t1 q2 t2 tf, readGroupDefaults env groupJson = .ok group ∧
      processFrames env group Fr1 pool [] = .ok (q1, t1) ∧
      processFrame env group frameValue q1 t1 = .ok (q2, t2) ∧
      processFrames env group Fr2 q2 t2 = .ok (remaining, tf) ∧
      validateGroup group.groupName tf = .ok tg := by
  obtain ⟨groupJson1, group, frames, tf, hobj, hread, harr, hpf, hv⟩ := processGroup_ok h
  cases hobj
  rw [hframes, Except.ok.injEq] at harr
  subst harr
  rw [processFrames_append] at hpf
  cases h1 : processFrames env group Fr1 pool [] with
  | error e => simp [h1] at hpf
  | ok r =>
    obtain ⟨q1, t1⟩ := r
    simp only [h1, processFrames] at hpf
    cases h2 : processFrame env group frameValue q1 t1 with
    | error e => simp [h2] at hpf
    | ok r2 =>
      obtain ⟨q2, t2⟩ := r2
      simp only [h2] at hpf
      exact ⟨group, q1, t1, q2, t2, tf, hread, h1, h2, hpf, hv⟩

/-- A list split at a position. -/
theorem getElem?_split {α : Type} :
    ∀ (l : List α) (i : Nat) (a : α), l[i]? = some a →
      ∃ l1 l2, l = l1 ++ a :: l2 ∧ l1.length = i := by
  intro l
  induction l with
  | nil => intro i a h; simp at h
  | cons x rest ih =>
    intro i a h
    cases i with
    | zero =>
      simp only [List.getElem?_cons_zero, Option.some.injEq] at h
      subst h
      exact ⟨[], rest, rfl, rfl⟩
    | succ j =>
      simp only [List.getElem?_cons_succ] at h
      obtain ⟨l1, l2, hl, hlen⟩ := ih j a h
      exact ⟨x :: l1, l2, by simp [hl], by simp [hlen]⟩

/-- A built frame carries the type of its group. -/
theorem buildFrame_group {F N : Type} {env : Env F N} {group : GroupDefaults F}
    {frame : FrameProperties F} {fileData : FileData} {spec : TextureFrameSpecification F}
    (h : buildFrame env group frame fileData = .ok spec) :
    spec.Metadata.FrameId.Group = group.groupType := by
  unfold buildFrame at h
  cases h1 : extractFrameIndex env fileData.Stem with
  | error e => simp [h1] at h
  | ok frameIndex =>
    cases h2 : resolveWorldScaling group.groupWorldScaling frame.frameWorldScaling with
    | none => simp [h1, h2] at h
    | some worldScaling =>
      cases h3 : env.GetImageSize fileData.Path with
      | none => simp [h1, h2, h3] at h
      | some textureSize =>
        simp only [h1, h2, h3, Except.ok.injEq] at h
        rw [← h]

/-- Every frame that the frame loop adds was built, in the group, for a file of
the pool that the pattern of one of the frame objects matches. -/
theorem processFrames_built {F N : Type} {env : Env F N} {group : GroupDefaults F}
    {frames : List (Json N)} {pool remaining : List FileData}
    {tf tf1 : List (TextureFrameSpecification F)}
    (h : processFrames env group frames pool tf = .ok (remaining, tf1)) :
    (∀ f ∈ remaining, f ∈ pool) ∧
    ∀ spec ∈ tf1, spec ∈ tf ∨ ∃ frameJson frame m f, Json.object frameJson ∈ frames ∧
      readFrameProperties env frameJson = .ok (frame, m) ∧ f ∈ pool ∧ m f.Stem = true ∧
      buildFrame env group frame f = .ok spec := by
  revert pool tf
  induction frames with
  | nil =>
    intro pool tf h
    simp only [processFrames, Except.ok.injEq, Prod.mk.injEq] at h
    obtain ⟨h1, h2⟩ := h
    subst h1 h2
    exact ⟨fun f hf => hf, fun spec hs => Or.inl hs⟩
  | cons fv rest ih =>
    intro pool tf h
    simp only [processFrames] at h
    cases h1 : processFrame env group fv pool tf with
    | error e => simp [h1] at h
    | ok r =>
      obtain ⟨p1, t1⟩ := r
      simp only [h1] at h
      obtain ⟨frameJson, frame, m, specs, hobj, hread, hb, -, hrem, ht⟩ := processFrame_ok h1
      subst hobj hrem ht
      obtain ⟨hsub, hbuilt⟩ := ih h
      constructor
      · intro f hf
        exact (List.mem_filter.mp (hsub f hf)).1
      · intro spec hs
        rcases hbuilt spec hs with hin | ⟨fj, fr, m1, f, hfj, hr, hf, hm, hbf⟩
        · rcases List.mem_append.mp hin with hin | hin
          · exact Or.inl hin
          · obtain ⟨f, hf, hbf⟩ := buildAll_mem hb spec hin
            obtain ⟨hfp, hfm⟩ := List.mem_filter.mp hf
            exact Or.inr ⟨frameJson, frame, m, f, List.mem_cons_self _ _, hread, hfp, hfm, hbf⟩
        · exact Or.inr ⟨fj, fr, m1, f, List.mem_cons_of_mem _ hfj, hr,
            (List.mem_filter.mp hf).1, hm, hbf⟩

/-- The files left by the group loop are files of the pool. -/
theorem processGroups_remaining {F N : Type} {env : Env F N} {groups : List (Json N)}
    {pool remaining : List FileData} {tgs tgs1 : List (TextureGroup F)}
    (h : processGroups env groups pool tgs = .ok (remaining, tgs1)) :
    ∀ f ∈ remaining, f ∈ pool :=
  processGroups_induction (fun p _ => ∀ f ∈ p, f ∈ pool)
    (fun _ _ _ _ _ hP hstep f hf => by
      obtain ⟨_, _, _, _, _, _, _, hpf, _⟩ := processGroup_ok hstep
      exact hP f ((processFrames_built hpf).1 f hf))
    groups pool tgs remaining tgs1 (fun f hf => hf) h

/-- C13: if `Load` succeeds, the database has as many groups as the manifest has
group objects, in the order of the manifest: the i-th element of the manifest
is a group object with a recognized `groupName`, and every frame of the i-th
group of the database has the `TextureGroupType` parsed from that name. -/
theorem Load_groups_follow_manifest {F N : Type} (env : Env F N) (jsonFilePath : String)
    (groups : List (Json N)) (pool : List FileData) (db : TextureDatabase F)
    (hload : LoadFromPool env jsonFilePath (.array groups) pool = .ok db) :
    db.mGroups.length = groups.length ∧
    ∀ (i : Nat) (groupValue : Json N), groups[i]? = some groupValue →
      ∃ groupJson groupName groupType textureGroup,
        groupValue = .object groupJson ∧
        GetMandatoryJsonString groupJson "groupName" = .ok groupName ∧
        StrToTextureGroupType groupName = .ok groupType ∧
        db.mGroups[i]? = some textureGroup ∧
        ∀ spec ∈ textureGroup.mFrameSpecifications,
          spec.Metadata.FrameId.Group = groupType := by
  constructor
  · obtain ⟨groups1, hroot, hgs⟩ := LoadFromPool_ok hload
    cases hroot
    obtain ⟨added, hadd, hlen⟩ := processGroups_groups hgs
    rw [hadd]
    simpa using hlen
  · intro i gv hi
    obtain ⟨G1, G2, hsplit, hlen⟩ := getElem?_split groups i gv hi
    subst hsplit
    obtain ⟨p1, tgs1, p2, tg, -, hpg, -, -, hget⟩ := LoadFromPool_split hload
    rw [hlen] at hget
    obtain ⟨groupJson, group, frames, tf, hobj, hread, -, hpf, hv⟩ := processGroup_ok hpg
    obtain ⟨hname, htype, -⟩ := readGroupDefaults_ok hread
    refine ⟨groupJson, group.groupName, group.groupType, tg, hobj, hname, htype, hget, ?_⟩
    intro spec hspec
    obtain ⟨-, htg⟩ := validateGroup_ok hv
    subst htg
    have hin : spec ∈ tf := (sortFrames_perm tf).mem_iff.mp hspec
    rcases (processFrames_built hpf).2 spec hin with h0 | ⟨_, _, _, _, -, -, -, -, hb⟩
    · cases h0
    · exact buildFrame_group hb

/-- C13 at the end-to-end example: one group object, one group, of type
`Water`. -/
theorem Load_groups_follow_manifest_witness :
    (TextureDatabase.mk [TextureGroup.mk
        [⟨⟨⟨10, 20⟩, (15 : ℚ), 30, false, 0, 0, ⟨.Water, 0⟩⟩, "Data/Textures/water_0.png"⟩,
         ⟨⟨⟨10, 20⟩, 15, 30, false, 0, 0, ⟨.Water, 1⟩⟩,
          "Data/Textures/water_1.png"⟩]]).mGroups.length = 1 :=
  (Load_groups_follow_manifest _ _
    [.object [("groupName", .string "water"), ("worldScaling", .number (3 / 2)),
      ("frames", .array [.object [("filename", .string "water_\\d+")]])]]
    _ _ LoadFromPool_water_images).1

/-! ## Theorems: the defaultable properties -/

/-- An optional member read with a default. -/
theorem withDefault_ok {α : Type} {r : Except LoadError (Option α)} {defaultValue v : α}
    (h : withDefault r defaultValue = .ok v) :
    ∃ o, r = .ok o ∧ v = o.getD defaultValue := by
  cases r with
  | error e => simp [withDefault] at h
  | ok o =>
    cases o with
    | none =>
      simp only [withDefault, Except.ok.injEq] at h
      exact ⟨none, rfl, h.symm⟩
    | some x =>
      simp only [withDefault, Except.ok.injEq] at h
      exact ⟨some x, rfl, h.symm⟩

/-- C15: for a file matched by a frame pattern (its stem carrying a frame index,
its image size known, a world scaling supplied), the frame is built, and each
of its ambient-light flag, anchor X and anchor Y is the value of the frame
object when the frame object supplies one, else the value of the group object
when the group object supplies one, else the default (false, 0, 0); each of the
three is read from the members of its own name only. -/
theorem buildFrame_properties {F N : Type} (env : Env F N)
    (groupJson frameJson : List (String × Json N)) (group : GroupDefaults F)
    (frame : FrameProperties F) (m : String → Bool) (fileData : FileData)
    (frameIndex : Nat) (worldScaling : F) (textureSize : ImageSize)
    (hgroup : readGroupDefaults env groupJson = .ok group)
    (hframe : readFrameProperties env frameJson = .ok (frame, m))
    (hidx : extractFrameIndex env fileData.Stem = .ok frameIndex)
    (hscale : resolveWorldScaling group.groupWorldScaling frame.frameWorldScaling =
      some worldScaling)
    (hsize : env.GetImageSize fileData.Path = some textureSize) :
    ∃ (spec : TextureFrameSpecification F) (frameLight groupLight : Option Bool)
      (frameX groupX frameY groupY : Option Int),
      buildFrame env group frame fileData = .ok spec ∧
      GetOptionalJsonBool frameJson "hasOwnAmbientLight" = .ok frameLight ∧
      GetOptionalJsonBool groupJson "hasOwnAmbientLight" = .ok groupLight ∧
      GetOptionalJsonInt env frameJson "anchorX" = .ok frameX ∧
      GetOptionalJsonInt env groupJson "anchorX" = .ok groupX ∧
      GetOptionalJsonInt env frameJson "anchorY" = .ok frameY ∧
      GetOptionalJsonInt env groupJson "anchorY" = .ok groupY ∧
      spec.Metadata.HasOwnAmbientLight = frameLight.getD (groupLight.getD false) ∧
      spec.Metadata.AnchorX = frameX.getD (groupX.getD 0) ∧
      spec.Metadata.AnchorY = frameY.getD (groupY.getD 0) := by
  obtain ⟨-, -, -, hgl, hgx, hgy⟩ := readGroupDefaults_ok hgroup
  obtain ⟨-, hfl, hfx, hfy, -, -⟩ := readFrameProperties_ok hframe
  obtain ⟨groupLight, hgl1, hgl2⟩ := withDefault_ok hgl
  obtain ⟨groupX, hgx1, hgx2⟩ := withDefault_ok hgx
  obtain ⟨groupY, hgy1, hgy2⟩ := withDefault_ok hgy
  refine ⟨_, frame.frameHasOwnAmbientLight, groupLight, frame.frameAnchorX, groupX,
    frame.frameAnchorY, groupY,
    buildFrame_eq env group frame fileData frameIndex worldScaling textureSize hidx hscale hsize,
    hfl, hgl1, hfx, hgx1, hfy, hgy1, ?_, ?_, ?_⟩
  · simp only [hgl2]
  · simp only [hgx2]
  · simp only [hgy2]

/-- C15 at a group with `hasOwnAmbientLight` true and `anchorX` 5, and a frame
with `anchorX` 7 and nothing else: the flag comes from the group, anchor X from
the frame, anchor Y is the default. -/
theorem buildFrame_properties_witness :
    ∃ spec, buildFrame (concreteEnv [] .null squareSizes)
        (GroupDefaults.mk "cloud" .Cloud (some 1) true 5 0)
        (FrameProperties.mk none none (some 7) none "cloud_\\d+") (pngFile "cloud_0") = .ok spec ∧
      spec.Metadata.HasOwnAmbientLight = true ∧ spec.Metadata.AnchorX = 7 ∧
      spec.Metadata.AnchorY = 0 := by
  obtain ⟨spec, fl, gl, fx, gx, fy, gy, hb, hfl, hgl, hfx, hgx, hfy, hgy, h1, h2, h3⟩ :=
    buildFrame_properties (concreteEnv [] .null squareSizes)
      [("groupName", .string "cloud"), ("worldScaling", .number 1),
        ("hasOwnAmbientLight", .boolean true), ("anchorX", .number 5)]
      [("anchorX", .number 7), ("filename", .string "cloud_\\d+")]
      (GroupDefaults.mk "cloud" .Cloud (some 1) true 5 0)
      (FrameProperties.mk none none (some 7) none "cloud_\\d+")
      (fun s => matchRegexItems
        [(.literal 'c', .one), (.literal 'l', .one), (.literal 'o', .one),
          (.literal 'u', .one), (.literal 'd', .one), (.literal '_', .one),
          (.digit, .plus)] s.data)
      (pngFile "cloud_0") 0 1 (ImageSize.mk 4 4) rfl rfl (by decide) rfl rfl
  have e1 : GetOptionalJsonBool [("anchorX", (Json.number 7 : Json ℚ)),
      ("filename", .string "cloud_\\d+")] "hasOwnAmbientLight" = .ok none := rfl
  have e2 : GetOptionalJsonBool [("groupName", (Json.string "cloud" : Json ℚ)),
      ("worldScaling", .number 1), ("hasOwnAmbientLight", .boolean true),
      ("anchorX", .number 5)] "hasOwnAmbientLight" = .ok (some true) := rfl
  have e3 : GetOptionalJsonInt (concreteEnv [] .null squareSizes)
      [("anchorX", (Json.number 7 : Json ℚ)), ("filename", .string "cloud_\\d+")] "anchorX" =
      .ok (some 7) := rfl
  have e4 : GetOptionalJsonInt (concreteEnv [] .null squareSizes)
      [("anchorX", (Json.number 7 : Json ℚ)), ("filename", .string "cloud_\\d+")] "anchorY" =
      .ok none := rfl
  have e5 : GetOptionalJsonInt (concreteEnv [] .null squareSizes)
      [("groupName", (Json.string "cloud" : Json ℚ)), ("worldScaling", .number 1),
        ("hasOwnAmbientLight", .boolean true), ("anchorX", .number 5)] "anchorY" =
      .ok none := rfl
  rw [e1, Except.ok.injEq] at hfl
  rw [e2, Except.ok.injEq] at hgl
  rw [e3, Except.ok.injEq] at hfx
  rw [e4, Except.ok.injEq] at hfy
  rw [e5, Except.ok.injEq] at hgy
  subst hfl hgl hfx hfy hgy
  exact ⟨spec, hb, h1, h2, h3⟩

/-! ## Theorems: which pattern consumes a file -/

/-- A file whose stem the pattern of no frame object of the list matches stays
in the pool through the frame loop. -/
theorem processFrames_keeps {F N : Type} {env : Env F N} {group : GroupDefaults F}
    {frames : List (Json N)} {pool remaining : List FileData}
    {tf tf1 : List (TextureFrameSpecification F)} {f : FileData}
    (hrej : rejectedByFrames env frames f.Stem) (hf : f ∈ pool)
    (h : processFrames env group frames pool tf = .ok (remaining, tf1)) : f ∈ remaining := by
  revert pool tf
  induction frames with
  | nil =>
    intro pool tf hf h
    simp only [processFrames, Except.ok.injEq, Prod.mk.injEq] at h
    rw [← h.1]
    exact hf
  | cons fv rest ih =>
    intro pool tf hf h
    simp only [processFrames] at h
    cases h1 : processFrame env group fv pool tf with
    | error e => simp [h1] at h
    | ok r =>
      obtain ⟨p1, t1⟩ := r
      simp only [h1] at h
      obtain ⟨frameJson, frame, m, specs, hobj, hread, -, -, hrem, -⟩ := processFrame_ok h1
      subst hobj
      obtain ⟨-, -, -, -, hname, hrx⟩ := readFrameProperties_ok hread
      have hm : m f.Stem = false := hrej frameJson (List.mem_cons_self _ _) _ hname m hrx
      have hf1 : f ∈ p1 := by
        rw [hrem, List.mem_filter]
        exact ⟨hf, by simp [hm]⟩
      exact ih (fun fj hfj => hrej fj (List.mem_cons_of_mem _ hfj)) hf1 h

/-- A file whose stem no pattern of the groups matches stays in the pool through
the group loop. -/
theorem processGroups_keeps {F N : Type} {env : Env F N} {groups : List (Json N)}
    {pool remaining : List FileData} {tgs tgs1 : List (TextureGroup F)} {f : FileData}
    (hrej : matchedByNoPattern env groups f.Stem) (hf : f ∈ pool)
    (h : processGroups env groups pool tgs = .ok (remaining, tgs1)) : f ∈ remaining := by
  revert pool tgs
  induction groups with
  | nil =>
    intro pool tgs hf h
    simp only [processGroups, Except.ok.injEq, Prod.mk.injEq] at h
    rw [← h.1]
    exact hf
  | cons gv rest ih =>
    intro pool tgs hf h
    simp only [processGroups] at h
    cases h1 : processGroup env gv pool with
    | error e => simp [h1] at h
    | ok r =>
      obtain ⟨p1, tg⟩ := r
      simp only [h1] at h
      obtain ⟨groupJson, group, frames, tf, hobj, -, harr, hpf, -⟩ := processGroup_ok h1
      subst hobj
      have hf1 : f ∈ p1 :=
        processFrames_keeps (hrej groupJson (List.mem_cons_self _ _) frames harr) hf hpf
      exact ih (fun gj hgj => hrej gj (List.mem_cons_of_mem _ hgj)) hf1 h

/-- C16 (first-claim semantics): if `Load` succeeds, a file of the pool is built
by the first frame pattern, in manifest order, that matches its stem. When the
pattern of a frame object matches the stem of the file, and no pattern of an
earlier group object or of an earlier frame object of the same group does, the
frame of the file is built from that frame object and its group object, and
lies in the group of the database at the position of that group object,
whatever the later patterns match. -/
theorem Load_first_pattern_builds {F N : Type} (env : Env F N) (jsonFilePath : String)
    (G1 G2 : List (Json N)) (groupJson : List (String × Json N)) (Fr1 Fr2 : List (Json N))
    (frameJson : List (String × Json N)) (frameFilename : String) (m : String → Bool)
    (pool : List FileData) (db : TextureDatabase F) (fileData : FileData)
    (hload : LoadFromPool env jsonFilePath (.array (G1 ++ .object groupJson :: G2)) pool =
      .ok db)
    (hframes : GetMandatoryJsonArray groupJson "frames" = .ok (Fr1 ++ .object frameJson :: Fr2))
    (hfile : fileData ∈ pool)
    (hname : GetMandatoryJsonString frameJson "filename" = .ok frameFilename)
    (hregex : env.regex ("^" ++ frameFilename ++ "$") = some m)
    (hmatch : m fileData.Stem = true)
    (hgroupsBefore : matchedByNoPattern env G1 fileData.Stem)
    (hframesBefore : rejectedByFrames env Fr1 fileData.Stem) :
    ∃ group frame spec textureGroup,
      readGroupDefaults env groupJson = .ok group ∧
      readFrameProperties env frameJson = .ok (frame, m) ∧
      buildFrame env group frame fileData = .ok spec ∧
      db.mGroups[G1.length]? = some textureGroup ∧
      spec ∈ textureGroup.mFrameSpecifications := by
  obtain ⟨p1, tgs1, p2, tg, hpg1, hpg, -, -, hget⟩ := LoadFromPool_split hload
  have hf1 : fileData ∈ p1 := processGroups_keeps hgroupsBefore hfile hpg1
  obtain ⟨group, q1, t1, q2, t2, tf, hread, hpf1, hpfv, hpf2, hv⟩ :=
    processGroup_split hpg hframes
  have hf2 : fileData ∈ q1 := processFrames_keeps hframesBefore hf1 hpf1
  obtain ⟨frameJson1, frame, m1, specs, hobj, hreadf, hb, -, -, ht2⟩ := processFrame_ok hpfv
  cases hobj
  obtain ⟨-, -, -, -, hname1, hrx1⟩ := readFrameProperties_ok hreadf
  rw [hname, Except.ok.injEq] at hname1
  subst hname1
  rw [hregex, Option.some.injEq] at hrx1
  subst hrx1
  obtain ⟨spec, hspec, hbf⟩ := buildAll_built hb fileData (List.mem_filter.mpr ⟨hf2, hmatch⟩)
  obtain ⟨added, hadd⟩ := processFrames_frames hpf2
  obtain ⟨-, htg⟩ := validateGroup_ok hv
  refine ⟨group, frame, spec, tg, hread, hreadf, hbf, hget, ?_⟩
  rw [htg]
  apply (sortFrames_perm tf).mem_iff.mpr
  rw [hadd, ht2]
  exact List.mem_append_left _ (List.mem_append_right _ hspec)

/-- The two-group manifest on the files `a_0` and `b_0`: the first pattern takes
`a_0`, the second, which matches both stems, takes what is left. -/
theorem LoadFromPool_twoGroups (secondName : String) (secondType : TextureGroupType)
    (htype : StrToTextureGroupType secondName = .ok secondType) :
    LoadFromPool poolEnv "t/textures.json" (twoGroupManifest secondName)
        [pngFile "a_0", pngFile "b_0"] =
      .ok (TextureDatabase.mk [TextureGroup.mk [squareFrame .Cloud 0 "a_0"],
        TextureGroup.mk [squareFrame secondType 0 "b_0"]]) := by
  have e : (4 : ℚ) = ((4 : ℤ) : ℚ) * 1 := by norm_num
  have h1 : processGroup poolEnv
      (.object [("groupName", .string "cloud"), ("worldScaling", .number 1),
        ("frames", .array [.object [("filename", .string "a_\\d+")]])])
      [pngFile "a_0", pngFile "b_0"] =
      .ok ([pngFile "b_0"], TextureGroup.mk [squareFrame .Cloud 0 "a_0"]) := by
    unfold squareFrame
    rw [e]
    rfl
  have hname : GetMandatoryJsonString
      [("groupName", (Json.string secondName : Json ℚ)), ("worldScaling", .number 1),
        ("frames", .array [.object [("filename", .string "._\\d+")]])] "groupName" =
      .ok secondName := rfl
  have hread : readGroupDefaults poolEnv
      [("groupName", (Json.string secondName : Json ℚ)), ("worldScaling", .number 1),
        ("frames", .array [.object [("filename", .string "._\\d+")]])] =
      .ok (GroupDefaults.mk secondName secondType (some 1) false 0 0) := by
    unfold readGroupDefaults
    rw [hname]
    simp only [htype]
    rfl
  have harr : GetMandatoryJsonArray
      [("groupName", (Json.string secondName : Json ℚ)), ("worldScaling", .number 1),
        ("frames", .array [.object [("filename", .string "._\\d+")]])] "frames" =
      .ok [.object [("filename", .string "._\\d+")]] := rfl
  have hpf : processFrames poolEnv (GroupDefaults.mk secondName secondType (some 1) false 0 0)
      [.object [("filename", .string "._\\d+")]] [pngFile "b_0"] [] =
      .ok ([], [squareFrame secondType 0 "b_0"]) := by
    unfold squareFrame
    rw [e]
    rfl
  have hv : validateGroup secondName [squareFrame secondType 0 "b_0"] =
      .ok (TextureGroup.mk [squareFrame secondType 0 "b_0"]) := rfl
  have h2 : processGroup poolEnv
      (.object [("groupName", .string secondName), ("worldScaling", .number 1),
        ("frames", .array [.object [("filename", .string "._\\d+")]])])
      [pngFile "b_0"] = .ok ([], TextureGroup.mk [squareFrame secondType 0 "b_0"]) := by
    simp only [processGroup, hread, harr, hpf, hv]
  simp only [twoGroupManifest, LoadFromPool, processGroups, h1, h2, List.nil_append,
    List.cons_append]

/-- C16 at the two-group manifest: the stem `a_0` is matched by the pattern
`a_\d+` of the first group and by the pattern `._\d+` of the second; its frame
is built by the first and lies in the first group of the database. -/
theorem Load_first_pattern_builds_witness :
    ∃ group frame spec textureGroup,
      readGroupDefaults poolEnv
        [("groupName", .string "cloud"), ("worldScaling", .number 1),
          ("frames", .array [.object [("filename", .string "a_\\d+")]])] = .ok group ∧
      readFrameProperties poolEnv [("filename", .string "a_\\d+")] =
        .ok (frame, fun s => matchRegexItems
          [(.literal 'a', .one), (.literal '_', .one), (.digit, .plus)] s.data) ∧
      buildFrame poolEnv group frame (pngFile "a_0") = .ok spec ∧
      (TextureDatabase.mk [TextureGroup.mk [squareFrame .Cloud 0 "a_0"],
        TextureGroup.mk [squareFrame .Water 0 "b_0"]]).mGroups[0]? = some textureGroup ∧
      spec ∈ textureGroup.mFrameSpecifications :=
  Load_first_pattern_builds poolEnv "t/textures.json" []
    [.object [("groupName", .string "water"), ("worldScaling", .number 1),
      ("frames", .array [.object [("filename", .string "._\\d+")]])]]
    [("groupName", .string "cloud"), ("worldScaling", .number 1),
      ("frames", .array [.object [("filename", .string "a_\\d+")]])]
    [] [] [("filename", .string "a_\\d+")] "a_\\d+"
    (fun s => matchRegexItems [(.literal 'a', .one), (.literal '_', .one), (.digit, .plus)] s.data)
    [pngFile "a_0", pngFile "b_0"] _ (pngFile "a_0")
    (LoadFromPool_twoGroups "water" .Water (by decide)) rfl (List.mem_cons_self _ _) rfl rfl
    (by decide) (fun _ h => absurd h (List.not_mem_nil _))
    (fun _ h => absurd h (List.not_mem_nil _))

/-! ## Theorems: a pattern without a file -/

/-- A frame object whose pattern matches no file of the pool makes the frame
loop body fail with the "couldn't match any file" error. -/
theorem processFrame_no_match {F N : Type} (env : Env F N) (group : GroupDefaults F)
    (frameJson : List (String × Json N)) (frame : FrameProperties F) (m : String → Bool)
    (pool : List FileData) (tf : List (TextureFrameSpecification F))
    (hread : readFrameProperties env frameJson = .ok (frame, m))
    (hnone : ∀ f ∈ pool, m f.Stem = false) :
    processFrame env group (.object frameJson) pool tf =
      .error (.noFileMatched frame.frameFilename) := by
  have hfilter : pool.filter (fun f => m f.Stem) = [] := by
    rw [List.filter_eq_nil_iff]
    intro f hf
    simp [hnone f hf]
  rw [processFrame_object]
  simp only [hread, hfilter, buildAll, List.length_nil, if_true]

/-- C14: every frame pattern must consume a file. When a frame pattern is
reached (the groups before its group and the frame objects before it in its
group were processed) and it matches the stem of no file still in the pool,
`Load` fails with the "couldn't match any file" error for that pattern; and if
`Load` succeeds, every frame pattern consumed a file: a file still in the pool
when the pattern was reached, matched by it, whose frame is in the database. -/
theorem Load_pattern_consumes {F N : Type} (env : Env F N) (jsonFilePath : String)
    (G1 G2 : List (Json N)) (groupJson : List (String × Json N)) (Fr1 Fr2 : List (Json N))
    (frameJson : List (String × Json N)) (pool : List FileData)
    (hframes : GetMandatoryJsonArray groupJson "frames" =
      .ok (Fr1 ++ .object frameJson :: Fr2)) :
    (∀ (group : GroupDefaults F) (frame : FrameProperties F) (m : String → Bool)
        (p1 q1 : List FileData) (tgs1 : List (TextureGroup F))
        (t1 : List (TextureFrameSpecification F)),
      processGroups env G1 pool [] = .ok (p1, tgs1) →
      readGroupDefaults env groupJson = .ok group →
      processFrames env group Fr1 p1 [] = .ok (q1, t1) →
      readFrameProperties env frameJson = .ok (frame, m) →
      (∀ f ∈ q1, m f.Stem = false) →
      LoadFromPool env jsonFilePath (.array (G1 ++ .object groupJson :: G2)) pool =
        .error (.noFileMatched frame.frameFilename)) ∧
    (∀ db : TextureDatabase F,
      LoadFromPool env jsonFilePath (.array (G1 ++ .object groupJson :: G2)) pool = .ok db →
      ∃ (group : GroupDefaults F) (frame : FrameProperties F) (m : String → Bool)
        (p1 q1 : List FileData) (tgs1 : List (TextureGroup F))
        (t1 : List (TextureFrameSpecification F)) (f : FileData)
        (spec : TextureFrameSpecification F),
        processGroups env G1 pool [] = .ok (p1, tgs1) ∧
        readGroupDefaults env groupJson = .ok group ∧
        processFrames env group Fr1 p1 [] = .ok (q1, t1) ∧
        readFrameProperties env frameJson = .ok (frame, m) ∧
        f ∈ q1 ∧ f ∈ pool ∧ m f.Stem = true ∧
        buildFrame env group frame f = .ok spec ∧ spec ∈ allFrames db) := by
  constructor
  · intro group frame m p1 q1 tgs1 t1 hpg1 hread hpf1 hreadf hnone
    have hpfv := processFrame_no_match env group frameJson frame m q1 t1 hreadf hnone
    have hpf : processFrames env group (Fr1 ++ .object frameJson :: Fr2) p1 [] =
        .error (.noFileMatched frame.frameFilename) := by
      rw [processFrames_append]
      simp only [hpf1, processFrames, hpfv]
    have hpg : processGroup env (.object groupJson) p1 =
        .error (.noFileMatched frame.frameFilename) := by
      simp only [processGroup, hread, hframes, hpf]
    have hpgs : processGroups env (G1 ++ .object groupJson :: G2) pool [] =
        .error (.noFileMatched frame.frameFilename) := by
      rw [processGroups_append]
      simp only [hpg1, processGroups, hpg]
    simp only [LoadFromPool, hpgs]
  · intro db hload
    obtain ⟨p1, tgs1, p2, tg, hpg1, hpg, -, -, hget⟩ := LoadFromPool_split hload
    obtain ⟨group, q1, t1, q2, t2, tf, hread, hpf1, hpfv, hpf2, hv⟩ :=
      processGroup_split hpg hframes
    obtain ⟨frameJson1, frame, m, specs, hobj, hreadf, hb, hne, -, ht2⟩ := processFrame_ok hpfv
    cases hobj
    cases specs with
    | nil => exact absurd rfl hne
    | cons spec rest =>
      obtain ⟨f, hf, hbf⟩ := buildAll_mem hb spec (List.mem_cons_self _ _)
      obtain ⟨hfq, hfm⟩ := List.mem_filter.mp hf
      have hfp1 : f ∈ p1 := (processFrames_built hpf1).1 f hfq
      have hfpool : f ∈ pool := processGroups_remaining hpg1 f hfp1
      obtain ⟨added, hadd⟩ := processFrames_frames hpf2
      obtain ⟨-, htg⟩ := validateGroup_ok hv
      refine ⟨group, frame, m, p1, q1, tgs1, t1, f, spec, hpg1, hread, hpf1, hreadf, hfq,
        hfpool, hfm, hbf, ?_⟩
      unfold allFrames
      rw [List.mem_flatMap]
      refine ⟨tg, List.getElem?_mem hget, ?_⟩
      rw [htg]
      apply (sortFrames_perm tf).mem_iff.mpr
      rw [hadd, ht2]
      exact List.mem_append_left _ (List.mem_append_right _ (List.mem_cons_self _ _))

/-- C14 at the manifest "cloud" with the pattern `a_\d+` and the pool of the
single file `b_0`. -/
theorem Load_pattern_consumes_witness :
    LoadFromPool poolEnv "t/textures.json" (cloudManifest "a_\\d+") [pngFile "b_0"] =
      .error (.noFileMatched "a_\\d+") :=
  (Load_pattern_consumes poolEnv "t/textures.json" [] []
    [("groupName", .string "cloud"), ("worldScaling", .number 1),
      ("frames", .array [.object [("filename", .string "a_\\d+")]])]
    [] [] [("filename", .string "a_\\d+")] [pngFile "b_0"] rfl).1
    (GroupDefaults.mk "cloud" .Cloud (some 1) false 0 0)
    (FrameProperties.mk none none none none "a_\\d+")
    (fun s => matchRegexItems [(.literal 'a', .one), (.literal '_', .one), (.digit, .plus)] s.data)
    [pngFile "b_0"] [pngFile "b_0"] [] [] rfl rfl rfl rfl (by decide)

/-! ## Theorems: frame identities across the database -/

/-- The group of the database at the position of an element of the manifest:
the element is a group object, and the frames of the group carry its type. -/
theorem LoadFromPool_group_at {F N : Type} {env : Env F N} {jsonFilePath : String}
    {groups : List (Json N)} {pool : List FileData} {db : TextureDatabase F}
    (hload : LoadFromPool env jsonFilePath (.array groups) pool = .ok db)
    {i : Nat} {groupValue : Json N} (hi : groups[i]? = some groupValue) :
    ∃ groupJson group textureGroup, groupValue = .object groupJson ∧
      readGroupDefaults env groupJson = .ok group ∧
      manifestGroupType groupValue = some group.groupType ∧
      db.mGroups[i]? = some textureGroup ∧
      ∀ spec ∈ textureGroup.mFrameSpecifications,
        spec.Metadata.FrameId.Group = group.groupType := by
  obtain ⟨G1, G2, hsplit, hlen⟩ := getElem?_split groups i groupValue hi
  subst hsplit
  obtain ⟨p1, tgs1, p2, tg, -, hpg, -, -, hget⟩ := LoadFromPool_split hload
  rw [hlen] at hget
  obtain ⟨groupJson, group, frames, tf, hobj, hread, -, hpf, hv⟩ := processGroup_ok hpg
  obtain ⟨hname, htype, -⟩ := readGroupDefaults_ok hread
  refine ⟨groupJson, group, tg, hobj, hread, ?_, hget, ?_⟩
  · rw [hobj]
    simp only [manifestGroupType, hname, htype]
  · intro spec hspec
    obtain ⟨-, htg⟩ := validateGroup_ok hv
    subst htg
    have hin : spec ∈ tf := (sortFrames_perm tf).mem_iff.mp hspec
    rcases (processFrames_built hpf).2 spec hin with h0 | ⟨_, _, _, _, -, -, -, -, hb⟩
    · cases h0
    · exact buildFrame_group hb

/-- After a successful load the frames of a group have pairwise distinct frame
identities. -/
theorem LoadFromPool_group_ids {F N : Type} {env : Env F N} {jsonFilePath : String}
    {root : Json N} {pool : List FileData} {db : TextureDatabase F}
    (hload : LoadFromPool env jsonFilePath root pool = .ok db) :
    ∀ g ∈ db.mGroups, (g.mFrameSpecifications.map fun spec => spec.Metadata.FrameId).Nodup := by
  intro g hg
  obtain ⟨groups, -, hgs⟩ := LoadFromPool_ok hload
  obtain ⟨groupName, tf, hv⟩ := processGroups_validated hgs g hg
  obtain ⟨hc, hgeq⟩ := validateGroup_ok hv
  subst hgeq
  have hr := checkFrameIndices_ok hc
  apply List.Nodup.of_map (fun id => id.FrameIndex)
  rw [List.map_map]
  have hcomp : ((fun id : TextureFrameId => id.FrameIndex) ∘
      fun spec : TextureFrameSpecification F => spec.Metadata.FrameId) = frameIndexOf := rfl
  rw [hcomp, hr]
  exact (List.pairwise_lt_range' _ _).imp (fun h => Nat.ne_of_lt h)

/-- C12, as the code has it: if `Load` succeeds, no two frames of one group have
the same `TextureFrameId`; `Load` does not compare the types of the groups, so
when the group names of the manifest are parsed to pairwise distinct
`TextureGroupType`s, no two groups of the database share a type and no two
frames of the whole database have the same `TextureFrameId`. -/
theorem Load_frame_ids_distinct {F N : Type} (env : Env F N) (jsonFilePath : String)
    (groups : List (Json N)) (pool : List FileData) (db : TextureDatabase F)
    (hload : LoadFromPool env jsonFilePath (.array groups) pool = .ok db) :
    (∀ g ∈ db.mGroups,
      (g.mFrameSpecifications.map fun spec => spec.Metadata.FrameId).Nodup) ∧
    ((groups.map manifestGroupType).Nodup →
      db.mGroups.Pairwise (fun g1 g2 =>
        ∀ s1 ∈ g1.mFrameSpecifications, ∀ s2 ∈ g2.mFrameSpecifications,
          s1.Metadata.FrameId.Group ≠ s2.Metadata.FrameId.Group) ∧
      ((allFrames db).map fun spec => spec.Metadata.FrameId).Nodup) := by
  have hwithin := LoadFromPool_group_ids hload
  refine ⟨hwithin, ?_⟩
  intro hdistinct
  have hlen : db.mGroups.length = groups.length := by
    obtain ⟨groups1, hroot, hgs⟩ := LoadFromPool_ok hload
    cases hroot
    obtain ⟨added, hadd, hl⟩ := processGroups_groups hgs
    rw [hadd]
    simpa using hl
  have hpair : db.mGroups.Pairwise (fun g1 g2 =>
      ∀ s1 ∈ g1.mFrameSpecifications, ∀ s2 ∈ g2.mFrameSpecifications,
        s1.Metadata.FrameId.Group ≠ s2.Metadata.FrameId.Group) := by
    rw [List.pairwise_iff_getElem]
    intro i j hi hj hij s1 hs1 s2 hs2 heq
    have hgi : groups[i]? = some (groups[i]) := List.getElem?_eq_getElem (by omega)
    have hgj : groups[j]? = some (groups[j]) := List.getElem?_eq_getElem (by omega)
    obtain ⟨gj1, group1, tg1, -, -, hty1, hget1, hall1⟩ := LoadFromPool_group_at hload hgi
    obtain ⟨gj2, group2, tg2, -, -, hty2, hget2, hall2⟩ := LoadFromPool_group_at hload hgj
    rw [List.getElem?_eq_getElem hi, Option.some.injEq] at hget1
    rw [List.getElem?_eq_getElem hj, Option.some.injEq] at hget2
    subst hget1 hget2
    have ht : group1.groupType = group2.groupType := by
      rw [← hall1 s1 hs1, ← hall2 s2 hs2]
      exact heq
    have hne := List.nodup_iff_getElem?_ne_getElem?.mp hdistinct i j hij
      (by rw [List.length_map]; omega)
    apply hne
    rw [List.getElem?_map, List.getElem?_map, hgi, hgj]
    simp only [Option.map_some', hty1, hty2, ht]
  refine ⟨hpair, ?_⟩
  unfold allFrames
  rw [List.map_flatMap, List.nodup_flatMap]
  refine ⟨hwithin, ?_⟩
  refine hpair.imp ?_
  intro g1 g2 h12
  rw [Function.onFun, List.disjoint_left]
  intro id h1 h2
  obtain ⟨s1, hs1, rfl⟩ := List.mem_map.mp h1
  obtain ⟨s2, hs2, he⟩ := List.mem_map.mp h2
  exact h12 s1 hs1 s2 hs2 (by rw [he])

/-- C12 at the two-group manifest with the groups "cloud" and "water". -/
theorem Load_frame_ids_distinct_witness :
    ((allFrames (TextureDatabase.mk [TextureGroup.mk [squareFrame .Cloud 0 "a_0"],
      TextureGroup.mk [squareFrame .Water 0 "b_0"]])).map
        fun spec => spec.Metadata.FrameId).Nodup :=
  ((Load_frame_ids_distinct poolEnv "t/textures.json"
    [.object [("groupName", .string "cloud"), ("worldScaling", .number 1),
        ("frames", .array [.object [("filename", .string "a_\\d+")]])],
      .object [("groupName", .string "water"), ("worldScaling", .number 1),
        ("frames", .array [.object [("filename", .string "._\\d+")]])]]
    [pngFile "a_0", pngFile "b_0"] _
    (LoadFromPool_twoGroups "water" .Water (by decide))).2 (by decide)).2

/-- C12 as stated fails: with two group objects named "cloud", `Load` succeeds
on the files `a_0` and `b_0` and returns two groups of type `Cloud`, each with
a frame of identity (Cloud, 0). -/
theorem Load_frame_ids_counterexample :
    LoadFromPool poolEnv "t/textures.json" (twoGroupManifest "cloud")
        [pngFile "a_0", pngFile "b_0"] =
      .ok (TextureDatabase.mk [TextureGroup.mk [squareFrame .Cloud 0 "a_0"],
        TextureGroup.mk [squareFrame .Cloud 0 "b_0"]]) ∧
    (squareFrame .Cloud 0 "a_0").Metadata.FrameId = TextureFrameId.mk .Cloud 0 ∧
    (squareFrame .Cloud 0 "b_0").Metadata.FrameId = TextureFrameId.mk .Cloud 0 ∧
    (squareFrame .Cloud 0 "a_0").FilePath ≠ (squareFrame .Cloud 0 "b_0").FilePath :=
  ⟨LoadFromPool_twoGroups "cloud" .Cloud (by decide), rfl, rfl, by decide⟩

/-! ## Theorems: the order of the directory listing -/

/-- What a successful run of `buildAll` on a non-empty list did. -/
theorem buildAll_cons_ok {F N : Type} {env : Env F N} {group : GroupDefaults F}
    {frame : FrameProperties F} {f : FileData} {rest : List FileData}
    {specs : List (TextureFrameSpecification F)}
    (h : buildAll env group frame (f :: rest) = .ok specs) :
    ∃ spec tail, buildFrame env group frame f = .ok spec ∧
      buildAll env group frame rest = .ok tail ∧ specs = spec :: tail := by
  unfold buildAll at h
  cases hb : buildFrame env group frame f with
  | error e => simp [hb] at h
  | ok spec =>
    cases hr : buildAll env group frame rest with
    | error e => simp [hb, hr] at h
    | ok tail =>
      simp only [hb, hr, Except.ok.injEq] at h
      exact ⟨spec, tail, rfl, rfl, h.symm⟩

/-- The frames built for a rearranged list of files are the same frames,
rearranged. -/
theorem buildAll_perm {F N : Type} {env : Env F N} {group : GroupDefaults F}
    {frame : FrameProperties F} {files files1 : List FileData} (hp : files.Perm files1) :
    ∀ specs, buildAll env group frame files = .ok specs →
      ∃ specs1, buildAll env group frame files1 = .ok specs1 ∧ specs.Perm specs1 := by
  induction hp with
  | nil => intro specs h; exact ⟨specs, h, List.Perm.refl _⟩
  | cons x _ ih =>
    intro specs h
    obtain ⟨spec, tail, hb, hr, hs⟩ := buildAll_cons_ok h
    obtain ⟨tail1, hr1, hp1⟩ := ih tail hr
    exact ⟨spec :: tail1, by simp only [buildAll, hb, hr1], by rw [hs]; exact hp1.cons spec⟩
  | swap x y l =>
    intro specs h
    obtain ⟨sy, tail, hby, hr, hs⟩ := buildAll_cons_ok h
    obtain ⟨sx, tail2, hbx, hr2, hs2⟩ := buildAll_cons_ok hr
    refine ⟨sx :: sy :: tail2, by simp only [buildAll, hbx, hby, hr2], ?_⟩
    rw [hs, hs2]
    exact List.Perm.swap sx sy tail2
  | trans _ _ ih1 ih2 =>
    intro specs h
    obtain ⟨specs1, h1, hp1⟩ := ih1 specs h
    obtain ⟨specs2, h2, hp2⟩ := ih2 specs1 h1
    exact ⟨specs2, h2, hp1.trans hp2⟩

/-- One frame object on a rearranged pool and rearranged frames. -/
theorem processFrame_perm {F N : Type} {env : Env F N} {group : GroupDefaults F}
    {frameValue : Json N} {pool pool1 p : List FileData}
    {tf tf1 t : List (TextureFrameSpecification F)}
    (hpool : pool.Perm pool1) (htf : tf.Perm tf1)
    (h : processFrame env group frameValue pool tf = .ok (p, t)) :
    ∃ p1 t1, processFrame env group frameValue pool1 tf1 = .ok (p1, t1) ∧
      p.Perm p1 ∧ t.Perm t1 := by
  obtain ⟨frameJson, frame, m, specs, hobj, hread, hb, hne, hrem, ht⟩ := processFrame_ok h
  subst hobj hrem ht
  obtain ⟨specs1, hb1, hp1⟩ := buildAll_perm (hpool.filter fun f => m f.Stem) specs hb
  have hlen : ¬ specs1.length = 0 := by
    rw [← hp1.length_eq]
    exact fun h0 => hne (List.length_eq_zero.mp h0)
  refine ⟨pool1.filter (fun f => !m f.Stem), tf1 ++ specs1, ?_, hpool.filter _,
    htf.append hp1⟩
  rw [processFrame_object]
  simp only [hread, hb1, hlen, if_false]

/-- The frame loop on a rearranged pool and rearranged frames. -/
theorem processFrames_perm {F N : Type} {env : Env F N} {group : GroupDefaults F} :
    ∀ (frames : List (Json N)) (pool pool1 p : List FileData)
      (tf tf1 t : List (TextureFrameSpecification F)),
      pool.Perm pool1 → tf.Perm tf1 →
      processFrames env group frames pool tf = .ok (p, t) →
      ∃ p1 t1, processFrames env group frames pool1 tf1 = .ok (p1, t1) ∧
        p.Perm p1 ∧ t.Perm t1 := by
  intro frames
  induction frames with
  | nil =>
    intro pool pool1 p tf tf1 t hpool htf h
    simp only [processFrames, Except.ok.injEq, Prod.mk.injEq] at h
    obtain ⟨h1, h2⟩ := h
    subst h1 h2
    exact ⟨pool1, tf1, rfl, hpool, htf⟩
  | cons fv rest ih =>
    intro pool pool1 p tf tf1 t hpool htf h
    simp only [processFrames] at h
    cases h1 : processFrame env group fv pool tf with
    | error e => simp [h1] at h
    | ok r =>
      obtain ⟨q, u⟩ := r
      simp only [h1] at h
      obtain ⟨q1, u1, hstep, hq, hu⟩ := processFrame_perm hpool htf h1
      obtain ⟨p1, t1, hrest, hp, ht⟩ := ih q q1 p u u1 t hq hu h
      exact ⟨p1, t1, by simp only [processFrames, hstep, hrest], hp, ht⟩

/-- Two lists with the same images under a function that is injective between
them are equal. -/
theorem eq_of_map_eq {α β : Type} (f : α → β) :
    ∀ (l1 l2 : List α), l1.map f = l2.map f →
      (∀ a ∈ l1, ∀ b ∈ l2, f a = f b → a = b) → l1 = l2 := by
  intro l1
  induction l1 with
  | nil =>
    intro l2 h _
    exact (List.map_eq_nil_iff.mp h.symm).symm
  | cons a rest ih =>
    intro l2 h hinj
    cases l2 with
    | nil => simp at h
    | cons b rest2 =>
      simp only [List.map_cons, List.cons.injEq] at h
      have hab : a = b := hinj a (List.mem_cons_self _ _) b (List.mem_cons_self _ _) h.1
      have hrest : rest = rest2 := ih rest2 h.2 (fun x hx y hy hxy =>
        hinj x (List.mem_cons_of_mem _ hx) y (List.mem_cons_of_mem _ hy) hxy)
      rw [hab, hrest]

/-- The outcome of a successful validation does not depend on the order of the
frames, nor on how the sort orders frames (there are none with equal indices):
every arrangement of the frames in ascending order of index is the stored
one. -/
theorem validateGroup_sorted_unique {F : Type} {groupName : String}
    {tf sorted : List (TextureFrameSpecification F)} {tg : TextureGroup F}
    (hv : validateGroup groupName tf = .ok tg) (hperm : sorted.Perm tf)
    (hsorted : (sorted.map frameIndexOf).Sorted (· ≤ ·)) :
    tg.mFrameSpecifications = sorted := by
  obtain ⟨hc, htg⟩ := validateGroup_ok hv
  subst htg
  have hr := checkFrameIndices_ok hc
  have hnodup : ((sortFrames tf).map frameIndexOf).Nodup := by
    rw [hr]
    exact (List.pairwise_lt_range' _ _).imp (fun h => Nat.ne_of_lt h)
  have hp : (sortFrames tf).Perm sorted := (sortFrames_perm tf).trans hperm.symm
  have hmap : (sortFrames tf).map frameIndexOf = sorted.map frameIndexOf :=
    List.eq_of_perm_of_sorted (hp.map _) (sortFrames_indices_sorted tf) hsorted
  apply eq_of_map_eq frameIndexOf _ _ hmap
  intro a ha b hb hab
  exact List.inj_on_of_nodup_map hnodup ha (hp.mem_iff.mpr hb) hab

/-- The validation of rearranged frames stores the same group. -/
theorem validateGroup_perm {F : Type} {groupName : String}
    {tf tf1 : List (TextureFrameSpecification F)} {tg : TextureGroup F}
    (hperm : tf.Perm tf1) (hv : validateGroup groupName tf = .ok tg) :
    validateGroup groupName tf1 = .ok tg := by
  have heq := validateGroup_sorted_unique hv ((sortFrames_perm tf1).trans hperm.symm)
    (sortFrames_indices_sorted tf1)
  obtain ⟨hc, htg⟩ := validateGroup_ok hv
  have hsort : sortFrames tf1 = sortFrames tf := by
    rw [← heq, htg]
  simp only [validateGroup, hsort, hc, htg]

/-- One group object on a rearranged pool stores the same group. -/
theorem processGroup_perm {F N : Type} {env : Env F N} {groupValue : Json N}
    {pool pool1 p : List FileData} {tg : TextureGroup F}
    (hpool : pool.Perm pool1) (h : processGroup env groupValue pool = .ok (p, tg)) :
    ∃ p1, processGroup env groupValue pool1 = .ok (p1, tg) ∧ p.Perm p1 := by
  obtain ⟨groupJson, group, frames, tf, hobj, hread, harr, hpf, hv⟩ := processGroup_ok h
  subst hobj
  obtain ⟨p1, tf1, hpf1, hp, ht⟩ :=
    processFrames_perm frames pool pool1 p [] [] tf hpool (List.Perm.refl _) hpf
  have hv1 := validateGroup_perm ht hv
  exact ⟨p1, by simp only [processGroup, hread, harr, hpf1, hv1], hp⟩

/-- The group loop on a rearranged pool stores the same groups. -/
theorem processGroups_perm {F N : Type} {env : Env F N} :
    ∀ (groups : List (Json N)) (pool pool1 p : List FileData)
      (tgs tgs1 : List (TextureGroup F)),
      pool.Perm pool1 → processGroups env groups pool tgs = .ok (p, tgs1) →
      ∃ p1, processGroups env groups pool1 tgs = .ok (p1, tgs1) ∧ p.Perm p1 := by
  intro groups
  induction groups with
  | nil =>
    intro pool pool1 p tgs tgs1 hpool h
    simp only [processGroups, Except.ok.injEq, Prod.mk.injEq] at h
    obtain ⟨h1, h2⟩ := h
    subst h1 h2
    exact ⟨pool1, rfl, hpool⟩
  | cons gv rest ih =>
    intro pool pool1 p tgs tgs1 hpool h
    simp only [processGroups] at h
    cases h1 : processGroup env gv pool with
    | error e => simp [h1] at h
    | ok r =>
      obtain ⟨q, tg⟩ := r
      simp only [h1] at h
      obtain ⟨q1, hstep, hq⟩ := processGroup_perm hpool h1
      obtain ⟨p1, hrest, hp⟩ := ih q q1 p (tgs ++ [tg]) tgs1 hq h
      exact ⟨p1, by simp only [processGroups, hstep, hrest], hp⟩

/-- C20: the successful result of `Load` does not depend on the order in which
the directory lists its files: if `Load` succeeds on a candidate pool, it
succeeds on every rearrangement of the pool and returns the same database. -/
theorem Load_order_independent {F N : Type} (env : Env F N) (jsonFilePath : String)
    (root : Json N) (pool pool1 : List FileData) (db : TextureDatabase F)
    (hperm : pool.Perm pool1)
    (hload : LoadFromPool env jsonFilePath root pool = .ok db) :
    LoadFromPool env jsonFilePath root pool1 = .ok db := by
  obtain ⟨groups, hroot, hgs⟩ := LoadFromPool_ok hload
  subst hroot
  obtain ⟨p1, hgs1, hp⟩ := processGroups_perm groups pool pool1 [] [] db.mGroups hperm hgs
  have hnil : p1 = [] := List.Perm.eq_nil hp.symm
  subst hnil
  simp only [LoadFromPool, hgs1]

/-- C20 at the two-group manifest: the pool `b_0`, `a_0` gives the database of
the pool `a_0`, `b_0`. -/
theorem Load_order_independent_witness :
    LoadFromPool poolEnv "t/textures.json" (twoGroupManifest "water")
        [pngFile "b_0", pngFile "a_0"] =
      .ok (TextureDatabase.mk [TextureGroup.mk [squareFrame .Cloud 0 "a_0"],
        TextureGroup.mk [squareFrame .Water 0 "b_0"]]) :=
  Load_order_independent poolEnv "t/textures.json" (twoGroupManifest "water")
    [pngFile "a_0", pngFile "b_0"] [pngFile "b_0", pngFile "a_0"] _
    (List.Perm.swap _ _ _) (LoadFromPool_twoGroups "water" .Water (by decide))

end FloatingSandbox
